import Mathlib

/-!
Verification of the cordova-node-xcode project-manipulation library.

This development is a shallow embedding, in Lean 4, of the parts of the
library that the specification's testable properties talk about:

* `lib/pbxFile.js` — the file-descriptor factory (`pbxFile` constructor and
  its helper tables / inference functions);
* `lib/pbxWriter.js` — the serializer (`pbxWriter` and its `write*` methods);
* `lib/pbxProject.js` — the object-graph store and its mutation operations
  (`generateUuid`, `allUuids`, `addFile`, `addPluginFile`, `addSourceFile`,
  `removeSourceFile`, `updateBuildProperty`, `addTargetDependency`, and the
  section-level helpers they call).

Modelling conventions, used throughout:

* JavaScript objects used as ordered string-keyed maps become association
  lists `List (String × α)`; property insertion, update, deletion and
  `for … in` iteration follow the JS own-property insertion order (the keys
  involved are never array indices, so insertion order is the spec order).
* Absent-or-`undefined` properties become `Option` fields; `delete` sets a
  field back to `none`.
* Code that can throw a `TypeError` at runtime (e.g. reading `.replace` of
  an `undefined` path) is embedded in `Except String`, the error message
  mirroring Node's.
* Machine integers do not occur on the modelled paths; all numbers are `Nat`.
-/

set_option autoImplicit false

/-! ## JavaScript string and object-model helpers -/

/-- JS string coercion of a possibly-`undefined` string value, as performed
by `util.format("%s", x)` and by string concatenation: `undefined` prints as
`"undefined"`. -/
def jsShowO : Option String → String
  | some s => s
  | none => "undefined"

/-- JS loose equality `x == y` between a possibly-`undefined` string and a
string: `undefined == "s"` is false. -/
def jsEqOS (a : Option String) (b : String) : Bool := a == some b

/-- JS loose equality between two possibly-`undefined` strings:
`undefined == undefined` is true. -/
def jsEqOO (a b : Option String) : Bool :=
  match a, b with
  | none, none => true
  | some x, some y => x == y
  | _, _ => false

/-- The test of the regular expression `COMMENT_KEY = /_comment$/`. -/
def isCommentKey (s : String) : Bool := "_comment".data.isSuffixOf s.data

/-- `key.split(COMMENT_KEY)[0]`: strip the trailing `_comment` from a key
that has it. -/
def stripCommentSuffix (s : String) : String :=
  ⟨s.data.take (s.data.length - "_comment".length)⟩

/-- `str.replace(/\\/g, '/')`. -/
def replBackslash (s : String) : String :=
  ⟨s.data.map fun c => if c = '\\' then '/' else c⟩

/-- `String.prototype.trim()`: drop whitespace from both ends. -/
def jsTrim (s : String) : String :=
  ⟨((s.data.dropWhile Char.isWhitespace).reverse.dropWhile Char.isWhitespace).reverse⟩

/-- `unquoted` from `pbxFile.js`: remove one leading and one trailing
double-quote (`text.replace(/(^")|("$)/g, '')`), mapping `null`/`undefined`
to the empty string. -/
def unquoted : Option String → String
  | none => ""
  | some s =>
    let l := if s.data.head? = some '"' then s.data.tail else s.data
    let l := if l.getLast? = some '"' then l.dropLast else l
    ⟨l⟩

/-- `unquote` from `pbxProject.js` on a present string:
`str.replace(/^"(.*)"$/, "$1")` (both quotes must be present). -/
def unquote (s : String) : String :=
  if s.data.length ≥ 2 ∧ s.data.head? = some '"' ∧ s.data.getLast? = some '"' then
    ⟨s.data.tail.dropLast⟩
  else s

/-! ### Node `path` (POSIX) functions, to the extent the library uses them -/

/-- `path.basename(p)`: the last path component, ignoring trailing
slashes. -/
def pathBasename (p : String) : String :=
  let noTrail := (p.data.reverse.dropWhile (· = '/')).reverse
  ⟨(noTrail.reverse.takeWhile (· ≠ '/')).reverse⟩

/-- `path.extname(p)`: the suffix of the basename from its last dot, empty
when the basename has no dot or only a leading dot. -/
def pathExtname (p : String) : String :=
  let b := (pathBasename p).data
  let afterLastDot := b.reverse.takeWhile (· ≠ '.')
  if afterLastDot.length = b.length then ""           -- no dot at all
  else if afterLastDot.length + 1 = b.length then
    -- the only dot is the leading character: hidden file, no extension —
    -- unless the basename is exactly "x." (dot last), handled below
    if b.head? = some '.' then "" else ⟨'.' :: afterLastDot.reverse⟩
  else ⟨'.' :: afterLastDot.reverse⟩

/-- `path.dirname(p)`: everything before the basename, `"."` when there is
no directory part. -/
def pathDirname (p : String) : String :=
  let noTrail := (p.data.reverse.dropWhile (· = '/')).reverse
  let dir := (noTrail.reverse.dropWhile (· ≠ '/')).reverse
  let dir := (dir.reverse.dropWhile (· = '/')).reverse
  if dir.isEmpty then (if p.data.head? = some '/' then "/" else ".") else ⟨dir⟩

/-- `path.join(a, b)` for the shapes the library uses (a directory prefix
ending in `/` joined with a basename). -/
def pathJoin2 (a b : String) : String :=
  if a.data.getLast? = some '/' then a ++ b else a ++ "/" ++ b

/-! ## The file-descriptor factory: `lib/pbxFile.js` -/

/-- `FILETYPE_BY_EXTENSION`, in source order (the order matters: it is the
iteration order of `defaultExtension`). -/
def FILETYPE_BY_EXTENSION : List (String × String) :=
  [("a", "archive.ar"),
   ("app", "wrapper.application"),
   ("appex", "wrapper.app-extension"),
   ("bundle", "wrapper.plug-in"),
   ("dylib", "compiled.mach-o.dylib"),
   ("framework", "wrapper.framework"),
   ("h", "sourcecode.c.h"),
   ("m", "sourcecode.c.objc"),
   ("markdown", "text"),
   ("mdimporter", "wrapper.cfbundle"),
   ("octest", "wrapper.cfbundle"),
   ("pch", "sourcecode.c.h"),
   ("plist", "text.plist.xml"),
   ("sh", "text.script.sh"),
   ("swift", "sourcecode.swift"),
   ("tbd", "sourcecode.text-based-dylib-definition"),
   ("xcassets", "folder.assetcatalog"),
   ("xcconfig", "text.xcconfig"),
   ("xcdatamodel", "wrapper.xcdatamodel"),
   ("xcodeproj", "wrapper.pb-project"),
   ("xctest", "wrapper.cfbundle"),
   ("xib", "file.xib"),
   ("strings", "text.plist.strings")]

def GROUP_BY_FILETYPE : List (String × String) :=
  [("archive.ar", "Frameworks"),
   ("compiled.mach-o.dylib", "Frameworks"),
   ("sourcecode.text-based-dylib-definition", "Frameworks"),
   ("wrapper.framework", "Frameworks"),
   ("embedded.framework", "Embed Frameworks"),
   ("sourcecode.c.h", "Resources"),
   ("sourcecode.c.objc", "Sources"),
   ("sourcecode.swift", "Sources")]

def PATH_BY_FILETYPE : List (String × String) :=
  [("compiled.mach-o.dylib", "usr/lib/"),
   ("sourcecode.text-based-dylib-definition", "usr/lib/"),
   ("wrapper.framework", "System/Library/Frameworks/")]

def SOURCETREE_BY_FILETYPE : List (String × String) :=
  [("compiled.mach-o.dylib", "SDKROOT"),
   ("sourcecode.text-based-dylib-definition", "SDKROOT"),
   ("wrapper.framework", "SDKROOT")]

def ENCODING_BY_FILETYPE : List (String × Nat) :=
  [("sourcecode.c.h", 4),
   ("sourcecode.c.objc", 4),
   ("sourcecode.swift", 4),
   ("text", 4),
   ("text.plist.xml", 4),
   ("text.script.sh", 4),
   ("text.xcconfig", 4),
   ("text.plist.strings", 4)]

def DEFAULT_SOURCETREE : String := "\"<group>\""
def DEFAULT_PRODUCT_SOURCETREE : String := "BUILT_PRODUCTS_DIR"
def DEFAULT_FILEENCODING : Nat := 4
def DEFAULT_GROUP : String := "Resources"
def DEFAULT_FILETYPE : String := "unknown"

/-- Table lookup (JS `table[key]`, `undefined` when absent). -/
def tblGet {α : Type} (t : List (String × α)) (k : String) : Option α :=
  (t.find? fun p => p.1 = k).map Prod.snd

/-- JS truthiness for an optional string option field: the field must be
present and not the empty string. -/
def optTruthyS : Option String → Bool
  | some s => s ≠ ""
  | none => false

/-- JS truthiness for an optional numeric option field: present and
non-zero. -/
def optTruthyN : Option Nat → Bool
  | some n => n ≠ 0
  | none => false

/-- `detectType` of `pbxFile.js`. -/
def detectType (filePath : String) : String :=
  let extension := ⟨(pathExtname filePath).data.drop 1⟩
  match tblGet FILETYPE_BY_EXTENSION (unquoted (some extension)) with
  | some t => t
  | none => DEFAULT_FILETYPE

/-- Per-file build settings (`settings` sub-object of a descriptor). -/
structure FileSettings where
  attributes : Option (List String) := none
  compilerFlags : Option String := none
  deriving DecidableEq, Repr

/-- The descriptor built by the `pbxFile` constructor.  Fields that the
constructor can `delete` (or never set) are `Option`s; `none` means the
property is absent from the JS object. -/
structure PbxFile where
  basename : String := ""
  lastKnownFileType : Option String := none
  group : Option String := none
  path : Option String := none
  fileEncoding : Option Nat := none
  defaultEncoding : Option Nat := none
  explicitFileType : Option String := none
  sourceTree : String := ""
  includeInIndex : Nat := 0
  customFramework : Bool := false
  dirname : Option String := none
  settings : Option FileSettings := none
  plugin : Bool := false
  fileRef : Option String := none
  uuid : Option String := none
  target : Option String := none
  deriving DecidableEq, Repr

/-- The options object accepted by the `pbxFile` constructor
(`PBXFileOptions` plus the `target` field forwarded by
`addSourceFile`). -/
structure PbxFileOptions where
  lastKnownFileType : Option String := none
  explicitFileType : Option String := none
  customFramework : Bool := false
  embed : Bool := false
  weak : Bool := false
  sign : Bool := false
  compilerFlags : Option String := none
  defaultEncoding : Option Nat := none
  sourceTree : Option String := none
  target : Option String := none
  hasTarget : Bool := false
  deriving DecidableEq, Repr

/-- `defaultExtension` of `pbxFile.js`, applied to a descriptor under
construction (at its call site `lastKnownFileType` is still present and
`explicitFileType` has just been assigned). -/
def defaultExtension (lastKnownFileType : Option String)
    (explicitFileType : Option String) : Option String :=
  let filetype : Option String :=
    match lastKnownFileType with
    | some t => if t ≠ DEFAULT_FILETYPE then some t else explicitFileType
    | none => explicitFileType
  (FILETYPE_BY_EXTENSION.find? fun p => p.2 = unquoted filetype).map Prod.fst

/-- `defaultEncoding` of `pbxFile.js` (the helper function, not the option
field): derive an encoding from the content type. -/
def defaultEncodingOf (lastKnownFileType explicitFileType : Option String) :
    Option Nat :=
  let filetype :=
    match lastKnownFileType with
    | some t => some t
    | none => explicitFileType
  tblGet ENCODING_BY_FILETYPE (unquoted filetype)

/-- `detectGroup` of `pbxFile.js`. At its call site the descriptor always
carries a present `lastKnownFileType` and no `explicitFileType` yet. -/
def detectGroup (basename : String) (lastKnownFileType : String)
    (opt : PbxFileOptions) : String :=
  let extension := ⟨(pathExtname basename).data.drop 1⟩
  let groupName := tblGet GROUP_BY_FILETYPE (unquoted (some lastKnownFileType))
  if extension = "xcdatamodeld" then "Sources"
  else if opt.customFramework ∧ opt.embed then "Embed Frameworks"
  else match groupName with
  | some g => g
  | none => DEFAULT_GROUP

/-- `detectSourcetree` of `pbxFile.js`, reading the descriptor after the
explicit-type branch may have deleted `lastKnownFileType`. -/
def detectSourcetree (lastKnownFileType explicitFileType : Option String)
    (customFramework : Bool) : String :=
  let filetype :=
    match lastKnownFileType with
    | some t => some t
    | none => explicitFileType
  let sourcetree := tblGet SOURCETREE_BY_FILETYPE (unquoted filetype)
  if optTruthyS explicitFileType then DEFAULT_PRODUCT_SOURCETREE
  else if customFramework then DEFAULT_SOURCETREE
  else match sourcetree with
  | some s => s
  | none => DEFAULT_SOURCETREE

/-- `defaultPath` of `pbxFile.js` (at its call site `lastKnownFileType` is
present). -/
def defaultPath (lastKnownFileType : String) (customFramework : Bool)
    (filePath : String) : String :=
  let dp := tblGet PATH_BY_FILETYPE (unquoted (some lastKnownFileType))
  if customFramework then filePath
  else match dp with
  | some d => pathJoin2 d (pathBasename filePath)
  | none => filePath

/-- The `pbxFile` constructor, statement by statement. -/
def mkPbxFile (filepath : String) (opt : PbxFileOptions) : PbxFile :=
  let basename := pathBasename filepath
  let lastKnownFileType : String :=
    if optTruthyS opt.lastKnownFileType then opt.lastKnownFileType.get!
    else detectType filepath
  let group := detectGroup basename lastKnownFileType opt
  let customFramework := opt.customFramework
  let dirname : Option String :=
    if customFramework then some (replBackslash (pathDirname filepath)) else none
  let path := replBackslash (defaultPath lastKnownFileType customFramework filepath)
  let enc : Option Nat :=
    if optTruthyN opt.defaultEncoding then opt.defaultEncoding
    else defaultEncodingOf (some lastKnownFileType) none
  -- the explicit-file-type branch: append the conventional extension to the
  -- basename and delete path / lastKnownFileType / group / defaultEncoding
  let explicit := optTruthyS opt.explicitFileType
  let basename :=
    if explicit then
      basename ++ "." ++
        jsShowO (defaultExtension (some lastKnownFileType) opt.explicitFileType)
    else basename
  let explicitFileType := if explicit then opt.explicitFileType else none
  let pathO : Option String := if explicit then none else some path
  let lastKnownO : Option String := if explicit then none else some lastKnownFileType
  let groupO : Option String := if explicit then none else some group
  let defaultEncO : Option Nat := if explicit then none else enc
  let sourceTree :=
    if optTruthyS opt.sourceTree then opt.sourceTree.get!
    else detectSourcetree lastKnownO explicitFileType customFramework
  let settings0 : Option FileSettings :=
    if opt.weak then some { attributes := some ["Weak"] } else none
  let settings1 : Option FileSettings :=
    if optTruthyS opt.compilerFlags then
      some { (settings0.getD {}) with
             compilerFlags := some ("\"" ++ opt.compilerFlags.get! ++ "\"") }
    else settings0
  let settings2 : Option FileSettings :=
    if opt.embed ∧ opt.sign then
      let s := settings1.getD {}
      some { s with attributes := some ((s.attributes.getD []) ++ ["CodeSignOnCopy"]) }
    else settings1
  { basename := basename
    lastKnownFileType := lastKnownO
    group := groupO
    path := pathO
    fileEncoding := enc
    defaultEncoding := defaultEncO
    explicitFileType := explicitFileType
    sourceTree := sourceTree
    includeInIndex := 0
    customFramework := customFramework
    dirname := dirname
    settings := settings2 }

/-- C6 scenario input: `new pbxFile("MyLib", {explicitFileType: "archive.ar"})`. -/
def c6File : PbxFile := mkPbxFile "MyLib" { explicitFileType := some "archive.ar" }

/-- **C6** — Constructing a file descriptor for path `"MyLib"` with explicit
type `"archive.ar"` yields a descriptor whose basename is `"MyLib.a"` (the
type's conventional extension appended) and which has no `path`,
`lastKnownFileType` or `group` fields present. -/
theorem c6_explicit_type_suppresses_inference :
    c6File.basename = "MyLib.a" ∧ c6File.path = none ∧
    c6File.lastKnownFileType = none ∧ c6File.group = none := by
  decide

/-! ## The serializer: `lib/pbxWriter.js`

The writer walks the parsed hash, a tree of JS values; we model that value
universe as `JVal`.  Composite values reached by the `%s` coercion are
rendered by their JS `String()` coercion (`Array.prototype.toString` joins
with `","`; plain objects print `"[object Object]"`); on well-formed stores
the writer only reaches `%s` with scalar leaves. -/

inductive JVal where
  | str : String → JVal
  | null : JVal
  | undef : JVal
  | arr : List JVal → JVal
  | obj : List (String × JVal) → JVal

mutual

/-- The `%s` coercion of `util.format` on a modelled JS value. -/
def jsFmt : JVal → String
  | .str s => s
  | .null => "null"
  | .undef => "undefined"
  | .arr ys => jsFmtElems ys
  | .obj _ => "[object Object]"

def jsFmtElems : List JVal → String
  | [] => ""
  | [y] => jsFmt y
  | y :: ys => jsFmt y ++ "," ++ jsFmtElems ys

end

/-- JS truthiness of a modelled value. -/
def truthyF : JVal → Bool
  | .str s => s ≠ ""
  | .null => false
  | .undef => false
  | .arr _ => true
  | .obj _ => true

/-- Property read `o[k]` on a modelled JS object. -/
def fGet (o : List (String × JVal)) (k : String) : Option JVal :=
  (o.find? fun p => p.1 == k).map Prod.snd

/-- The writer's `comment(key, parent)` helper: the value at
`key + "_comment"` when it is truthy. -/
def commentOf (parent : List (String × JVal)) (key : String) : Option JVal :=
  match fGet parent (key ++ "_comment") with
  | some v => if truthyF v then some v else none
  | none => none

/-- `obj === undefined || obj === null`. -/
def isEmptyScalar : JVal → Bool
  | .null => true
  | .undef => true
  | _ => false

/-- The writer's indentation helper `i(x)` (`INDENT = '\t'`). -/
def indentStr : Nat → String
  | 0 => ""
  | n + 1 => "\t" ++ indentStr n

mutual

/-- The loop body of `pbxWriter.prototype.writeObject`: `whole` is the
object being iterated (the comment-lookup parent), the last argument the
remaining entries. -/
def writeObjectFields (om : Bool) (ind : Nat)
    (whole : List (String × JVal)) : List (String × JVal) → String
  | [] => ""
  | (key, v) :: rest =>
    (if isCommentKey key then "" else
     let cmt := commentOf whole key
     match v with
     | .arr xs => writeArray om ind xs key
     | .obj fs =>
         indentStr ind ++ key ++ " = \x7b\n" ++
         writeObjectFields om (ind + 1) fs fs ++
         indentStr ind ++ "\x7d;\n"
     | v =>
         if om ∧ isEmptyScalar v then ""
         else match cmt with
         | some c =>
             indentStr ind ++ key ++ " = " ++ jsFmt v ++ " /* " ++ jsFmt c ++ " */;\n"
         | none => indentStr ind ++ key ++ " = " ++ jsFmt v ++ ";\n") ++
    writeObjectFields om ind whole rest
termination_by l => sizeOf l
decreasing_by all_goals (simp_wf; try omega)

/-- `pbxWriter.prototype.writeArray`. -/
def writeArray (om : Bool) (ind : Nat) (xs : List JVal) (name : String) :
    String :=
  indentStr ind ++ name ++ " = (\n" ++
  writeArrayEntries om (ind + 1) xs ++
  indentStr ind ++ ");\n"
termination_by sizeOf xs + 1
decreasing_by all_goals (simp_wf; try omega)

/-- The element loop of `writeArray`: a truthy `(value, comment)` entry
prints as `value /* comment */,`; other objects (including nested arrays)
recurse into `writeObject`; scalars print bare — with no omit-empty check
on this path. -/
def writeArrayEntries (om : Bool) (ind : Nat) : List JVal → String
  | [] => ""
  | e :: rest =>
    (match e with
     | .obj fs =>
       match fGet fs "value", fGet fs "comment" with
       | some v, some c =>
         if truthyF v ∧ truthyF c then
           indentStr ind ++ jsFmt v ++ " /* " ++ jsFmt c ++ " */,\n"
         else
           indentStr ind ++ "\x7b\n" ++
           writeObjectFields om (ind + 1) fs fs ++
           indentStr ind ++ "\x7d,\n"
       | _, _ =>
         indentStr ind ++ "\x7b\n" ++
         writeObjectFields om (ind + 1) fs fs ++
         indentStr ind ++ "\x7d,\n"
     | .arr ys =>
       indentStr ind ++ "\x7b\n" ++
       writeArrayAsObj om (ind + 1) 0 ys ++
       indentStr ind ++ "\x7d,\n"
     | e => indentStr ind ++ jsFmt e ++ ",\n") ++
    writeArrayEntries om ind rest
termination_by l => sizeOf l
decreasing_by all_goals (simp_wf; try omega)

/-- `writeObject` applied to an array value: the `for … in` loop visits the
index keys `"0"`, `"1"`, …, in order; no index key is a comment key and no
`<i>_comment` key exists, so each element renders through the plain entry
cases of `writeObject`. -/
def writeArrayAsObj (om : Bool) (ind : Nat) : Nat → List JVal → String
  | _, [] => ""
  | i, y :: ys =>
    (match y with
     | .arr xs => writeArray om ind xs (toString i)
     | .obj fs =>
         indentStr ind ++ toString i ++ " = \x7b\n" ++
         writeObjectFields om (ind + 1) fs fs ++
         indentStr ind ++ "\x7d;\n"
     | y =>
         if om ∧ isEmptyScalar y then ""
         else indentStr ind ++ toString i ++ " = " ++ jsFmt y ++ ";\n") ++
    writeArrayAsObj om ind (i + 1) ys
termination_by i l => sizeOf l
decreasing_by all_goals (simp_wf; try omega)

end

/-- `writeObject` on an arbitrary value, as invoked by the block branch of
`writeSection`: objects iterate their entries, arrays their index keys,
strings their character index keys (the JS `for … in` over a primitive
string), `null`/`undefined` iterate nothing. -/
def writeObjectF (om : Bool) (ind : Nat) : JVal → String
  | .obj fs => writeObjectFields om ind fs fs
  | .arr ys => writeArrayAsObj om ind 0 ys
  | .str s =>
      String.join (s.data.enum.map fun p =>
        indentStr ind ++ toString p.1 ++ " = " ++ String.singleton p.2 ++ ";\n")
  | _ => ""

mutual

/-- `inlineObjectHelper` of `pbxWriter.prototype.writeInlineObject`:
produces the list of output parts for one (always object-valued) record. -/
def inlineHelper (om : Bool) (name : String) (desc : Option JVal)
    (fs : List (String × JVal)) : List String :=
  (match desc with
   | some d => name ++ " /* " ++ jsFmt d ++ " */ = \x7b"
   | none => name ++ " = \x7b") ::
  (inlineEntries om fs fs ++ ["\x7d; "])
termination_by sizeOf fs + 1
decreasing_by all_goals (simp_wf; try omega)

/-- The field loop of `inlineObjectHelper`; arrays are flattened to
`key = (elem, …); ` segments (matched before the object case, so they never
recurse), nested objects recurse into the helper. -/
def inlineEntries (om : Bool) (whole : List (String × JVal)) :
    List (String × JVal) → List String
  | [] => []
  | (key, v) :: rest =>
    (if isCommentKey key then [] else
     let cmt := commentOf whole key
     match v with
     | .arr xs => (key ++ " = (") :: (xs.map fun x => jsFmt x ++ ", ") ++ ["); "]
     | .obj fs => inlineHelper om key cmt fs
     | v =>
       if om ∧ isEmptyScalar v then []
       else match cmt with
       | some c => [key ++ " = " ++ jsFmt v ++ " /* " ++ jsFmt c ++ " */; "]
       | none => [key ++ " = " ++ jsFmt v ++ "; "]) ++
    inlineEntries om whole rest
termination_by l => sizeOf l
decreasing_by all_goals (simp_wf; try omega)

end

/-- `pbxWriter.prototype.writeInlineObject`: join the parts, trim, emit as
one indented line. -/
def writeInlineObject (om : Bool) (ind : Nat) (key : String)
    (cmt : Option JVal) (fs : List (String × JVal)) : String :=
  indentStr ind ++ jsTrim (String.join (inlineHelper om key cmt fs)) ++ "\n"

/-- The guard of `writeSection`:
`obj && obj.isa == 'PBXBuildFile' || obj && obj.isa == 'PBXFileReference'`.
Only object records carry an `isa` property; the loose equality is modelled
for string-valued `isa` fields (the only shape the store produces). -/
def isaEq (v : JVal) (t : String) : Bool :=
  truthyF v &&
    (match v with
     | .obj fs =>
       match fGet fs "isa" with
       | some (.str s) => s == t
       | _ => false
     | _ => false)

/-- The loop body of `pbxWriter.prototype.writeSection` for one entry. -/
def writeSectionEntry (om : Bool) (ind : Nat)
    (whole : List (String × JVal)) : String × JVal → String
  | (key, v) =>
    if isCommentKey key then "" else
    let cmt := commentOf whole key
    if isaEq v "PBXBuildFile" || isaEq v "PBXFileReference" then
      match v with
      | .obj fs => writeInlineObject om ind key cmt fs
      | _ => ""   -- unreachable: `isaEq` holds only for objects
    else
      (match cmt with
       | some c => indentStr ind ++ key ++ " /* " ++ jsFmt c ++ " */ = \x7b\n"
       | none => indentStr ind ++ key ++ " = \x7b\n") ++
      writeObjectF om (ind + 1) v ++
      indentStr ind ++ "\x7d;\n"

/-- `pbxWriter.prototype.writeSection`. -/
def writeSection (om : Bool) (ind : Nat)
    (sec : List (String × JVal)) : String :=
  String.join (sec.map (writeSectionEntry om ind sec))

/-- The `pbxWriter` constructor's handling of its options argument: a
missing options object, and a missing `omitEmptyValues` field, both default
the switch to `false`. -/
def writerOmitEmptyValues (options : Option (Option Bool)) : Bool :=
  match options with
  | none => false
  | some o => o.getD false

/-! ### Newline-freedom of field data, and the single-line property -/

/-- `s` contains no newline character. -/
def noNL (s : String) : Bool := !s.data.elem '\n'

mutual

/-- No string anywhere in the value contains a newline. -/
def jvalNoNL : JVal → Bool
  | .str s => noNL s
  | .null => true
  | .undef => true
  | .arr ys => jvalsNoNL ys
  | .obj fs => jentsNoNL fs
termination_by v => sizeOf v
decreasing_by all_goals (simp_wf; try omega)

def jvalsNoNL : List JVal → Bool
  | [] => true
  | y :: ys => jvalNoNL y && jvalsNoNL ys
termination_by l => sizeOf l
decreasing_by all_goals (simp_wf; try omega)

def jentsNoNL : List (String × JVal) → Bool
  | [] => true
  | (k, v) :: rest => noNL k && jvalNoNL v && jentsNoNL rest
termination_by l => sizeOf l
decreasing_by all_goals (simp_wf; try omega)

end

/-- A string that is exactly one output line: it ends with the newline that
is its only newline. -/
def isSingleLine (s : String) : Bool :=
  s.data.count '\n' == 1 && s.data.getLast? == some '\n'

theorem noNL_iff {s : String} : noNL s = true ↔ '\n' ∉ s.data := by
  simp [noNL, List.elem_iff]

theorem noNL_append {a b : String} :
    noNL (a ++ b) = true ↔ (noNL a = true ∧ noNL b = true) := by
  simp [noNL_iff, String.data_append, List.mem_append, not_or]

theorem noNL_indentStr (n : Nat) : noNL (indentStr n) = true := by
  induction n with
  | zero => decide
  | succ m ih => rw [indentStr]; exact noNL_append.2 ⟨by decide, ih⟩

theorem jvalsNoNL_mem {ys : List JVal} (h : jvalsNoNL ys = true) :
    ∀ y ∈ ys, jvalNoNL y = true := by
  induction ys with
  | nil => simp
  | cons a l ih =>
    rw [jvalsNoNL, Bool.and_eq_true] at h
    intro y hy
    rcases List.mem_cons.1 hy with rfl | hmem
    · exact h.1
    · exact ih h.2 y hmem

theorem jentsNoNL_mem {l : List (String × JVal)} (h : jentsNoNL l = true) :
    ∀ p ∈ l, noNL p.1 = true ∧ jvalNoNL p.2 = true := by
  induction l with
  | nil => simp
  | cons a rest ih =>
    obtain ⟨k, v⟩ := a
    rw [jentsNoNL, Bool.and_eq_true, Bool.and_eq_true] at h
    intro p hp
    rcases List.mem_cons.1 hp with rfl | hmem
    · exact ⟨h.1.1, h.1.2⟩
    · exact ih h.2 p hmem

theorem jsFmt_noNL :
    (∀ v : JVal, jvalNoNL v = true → noNL (jsFmt v) = true) ∧
    (∀ ys : List JVal, jvalsNoNL ys = true → noNL (jsFmtElems ys) = true) := by
  apply jsFmt.mutual_induct
    (fun v => jvalNoNL v = true → noNL (jsFmt v) = true)
    (fun ys => jvalsNoNL ys = true → noNL (jsFmtElems ys) = true)
  · intro s h; rw [jvalNoNL] at h; rw [jsFmt]; exact h
  · intro _; decide
  · intro _; decide
  · intro ys ih h; rw [jvalNoNL] at h; rw [jsFmt]; exact ih h
  · intro a _; simp [jsFmt]; decide
  · intro _; decide
  · intro y ih h
    rw [jvalsNoNL, Bool.and_eq_true] at h
    rw [jsFmtElems]; exact ih h.1
  · intro y ys hne ihy ihys h
    rw [jvalsNoNL, Bool.and_eq_true] at h
    rcases ys with _ | ⟨z, zs⟩
    · exact absurd rfl (fun heq => hne heq)
    · show noNL (jsFmt y ++ "," ++ jsFmtElems (z :: zs)) = true
      exact noNL_append.2 ⟨noNL_append.2 ⟨ihy h.1, by decide⟩, ihys h.2⟩

theorem fGet_noNL {l : List (String × JVal)} {k : String} {v : JVal}
    (h : jentsNoNL l = true) (hget : fGet l k = some v) : jvalNoNL v = true := by
  have : ∃ p ∈ l, p.2 = v := by
    unfold fGet at hget
    rw [Option.map_eq_some'] at hget
    obtain ⟨p, hfind, hpv⟩ := hget
    exact ⟨p, List.mem_of_find?_eq_some hfind, hpv⟩
  obtain ⟨p, hp, hpv⟩ := this
  have := (jentsNoNL_mem h p hp).2
  rwa [hpv] at this

theorem commentOf_noNL {parent : List (String × JVal)} {key : String} {c : JVal}
    (h : jentsNoNL parent = true) (hc : commentOf parent key = some c) :
    jvalNoNL c = true := by
  unfold commentOf at hc
  rcases hget : fGet parent (key ++ "_comment") with _ | v
  · rw [hget] at hc; simp at hc
  · rw [hget] at hc
    by_cases ht : truthyF v = true
    · simp only [ht, if_true] at hc
      obtain rfl := Option.some.inj hc
      exact fGet_noNL h hget
    · rw [Bool.not_eq_true] at ht; simp only [ht] at hc; simp at hc

/-- Every part emitted by `inlineObjectHelper` is newline-free, provided the
record and its surrounding section data are. -/
theorem inlineParts_noNL (om : Bool) :
    (∀ (name : String) (desc : Option JVal) (fs : List (String × JVal)),
      noNL name = true → (∀ d, desc = some d → jvalNoNL d = true) →
      jentsNoNL fs = true →
      ∀ p ∈ inlineHelper om name desc fs, noNL p = true) ∧
    (∀ (whole l : List (String × JVal)),
      jentsNoNL whole = true → jentsNoNL l = true →
      ∀ p ∈ inlineEntries om whole l, noNL p = true) := by
  apply inlineHelper.mutual_induct om
    (fun name desc fs =>
      noNL name = true → (∀ d, desc = some d → jvalNoNL d = true) →
      jentsNoNL fs = true →
      ∀ p ∈ inlineHelper om name desc fs, noNL p = true)
    (fun whole l =>
      jentsNoNL whole = true → jentsNoNL l = true →
      ∀ p ∈ inlineEntries om whole l, noNL p = true)
  · -- inlineHelper
    intro name desc fs ih hname hdesc hfs p hp
    rw [inlineHelper.eq_def] at hp
    rcases List.mem_cons.1 hp with rfl | hp
    · rcases desc with _ | d
      · exact noNL_append.2 ⟨hname, by decide⟩
      · exact noNL_append.2 ⟨noNL_append.2 ⟨noNL_append.2
          ⟨hname, by decide⟩, jsFmt_noNL.1 d (hdesc d rfl)⟩, by decide⟩
    · rcases List.mem_append.1 hp with hp | hp
      · exact ih hfs hfs p hp
      · simp only [List.mem_singleton] at hp; subst hp; decide
  · -- inlineEntries []
    intro whole _ _ p hp; rw [inlineEntries] at hp; simp at hp
  · -- inlineEntries cons
    intro whole key v rest ihv ihrest hwhole hl p hp
    rw [jentsNoNL, Bool.and_eq_true, Bool.and_eq_true] at hl
    obtain ⟨⟨hkey, hv⟩, hrest⟩ := hl
    rw [inlineEntries] at hp
    rcases List.mem_append.1 hp with hp | hp
    swap
    · exact ihrest hwhole hrest p hp
    by_cases hck : isCommentKey key = true
    · rw [if_pos hck] at hp; simp at hp
    rw [if_neg hck] at hp
    rcases v with s | _ | _ | xs | fs
    · -- string scalar field
      rcases hcmt : commentOf whole key with _ | c <;>
        simp only [hcmt, isEmptyScalar] at hp <;>
        rw [if_neg (by simp)] at hp <;>
        rw [List.mem_singleton] at hp <;> subst hp
      · simp only [noNL_append]
        repeat' apply And.intro
        all_goals first
          | exact hkey
          | exact jsFmt_noNL.1 _ hv
          | decide
      · simp only [noNL_append]
        repeat' apply And.intro
        all_goals first
          | exact hkey
          | exact jsFmt_noNL.1 _ hv
          | exact jsFmt_noNL.1 c (commentOf_noNL hwhole hcmt)
          | decide
    · -- null field
      by_cases hom : om = true
      · rcases hcmt : commentOf whole key with _ | c <;>
          simp [hcmt, isEmptyScalar, hom] at hp
      · rcases hcmt : commentOf whole key with _ | c <;>
          simp only [hcmt, isEmptyScalar] at hp <;>
          rw [if_neg (by simp [hom])] at hp <;>
          rw [List.mem_singleton] at hp <;> subst hp
        · simp only [noNL_append]
          repeat' apply And.intro
          all_goals first
            | exact hkey
            | decide
        · simp only [noNL_append]
          repeat' apply And.intro
          all_goals first
            | exact hkey
            | exact jsFmt_noNL.1 c (commentOf_noNL hwhole hcmt)
            | decide
    · -- undefined field
      by_cases hom : om = true
      · rcases hcmt : commentOf whole key with _ | c <;>
          simp [hcmt, isEmptyScalar, hom] at hp
      · rcases hcmt : commentOf whole key with _ | c <;>
          simp only [hcmt, isEmptyScalar] at hp <;>
          rw [if_neg (by simp [hom])] at hp <;>
          rw [List.mem_singleton] at hp <;> subst hp
        · simp only [noNL_append]
          repeat' apply And.intro
          all_goals first
            | exact hkey
            | decide
        · simp only [noNL_append]
          repeat' apply And.intro
          all_goals first
            | exact hkey
            | exact jsFmt_noNL.1 c (commentOf_noNL hwhole hcmt)
            | decide
    · -- array field: flattened without recursion
      rcases List.mem_cons.1 hp with rfl | hp
      · exact noNL_append.2 ⟨hkey, by decide⟩
      rcases List.mem_append.1 hp with hp | hp
      · obtain ⟨x, hx, rfl⟩ := List.mem_map.1 hp
        rw [jvalNoNL] at hv
        exact noNL_append.2 ⟨jsFmt_noNL.1 x (jvalsNoNL_mem hv x hx), by decide⟩
      · simp only [List.mem_singleton] at hp; subst hp; decide
    · -- nested object field: recurse through the helper
      rw [jvalNoNL] at hv
      exact ihv hkey (fun d hd => commentOf_noNL hwhole hd) hv p hp

theorem join_noNL {parts : List String} (h : ∀ p ∈ parts, noNL p = true) :
    noNL (String.join parts) = true := by
  rw [noNL_iff, String.join_eq]
  intro hmem
  rw [show ({ data := (List.map String.data parts).flatten } : String).data
      = (List.map String.data parts).flatten from rfl] at hmem
  obtain ⟨l, hl, hc⟩ := List.mem_flatten.1 hmem
  obtain ⟨p, hp, rfl⟩ := List.mem_map.1 hl
  exact noNL_iff.1 (h p hp) hc

theorem jsTrim_noNL {s : String} (h : noNL s = true) : noNL (jsTrim s) = true := by
  rw [noNL_iff] at h ⊢
  intro hmem
  apply h
  rw [show (jsTrim s).data =
      ((s.data.dropWhile Char.isWhitespace).reverse.dropWhile
        Char.isWhitespace).reverse from rfl] at hmem
  rw [List.mem_reverse] at hmem
  have h1 := (List.dropWhile_sublist (l := (s.data.dropWhile Char.isWhitespace).reverse)
    Char.isWhitespace).subset hmem
  rw [List.mem_reverse] at h1
  exact (List.dropWhile_sublist Char.isWhitespace).subset h1

theorem isSingleLine_append_newline {s : String} (h : noNL s = true) :
    isSingleLine (s ++ "\n") = true := by
  rw [isSingleLine, String.data_append]
  rw [show ("\n" : String).data = ['\n'] from rfl]
  rw [List.count_append, List.getLast?_concat]
  rw [List.count_eq_zero.2 (noNL_iff.1 h)]
  decide

theorem isSingleLine_false_two {a b : String} (ha : '\n' ∈ a.data)
    (hb : '\n' ∈ b.data) : isSingleLine (a ++ b) = false := by
  rw [isSingleLine, String.data_append, List.count_append]
  have h1 : 0 < a.data.count '\n' := List.count_pos_iff.2 ha
  have h2 : 0 < b.data.count '\n' := List.count_pos_iff.2 hb
  have : (a.data.count '\n' + b.data.count '\n' == 1) = false := by
    rw [beq_eq_false_iff_ne]; omega
  rw [this, Bool.false_and]

/-- **C7** — In `writeSection`, a record whose `isa` discriminator is
`PBXBuildFile` or `PBXFileReference` — and only such a record — is rendered
as a single output line (`<ID> /* <comment> */ = {isa = …; …; }; ` followed
by one newline), and this holds for every value of the only configuration
switch, `omitEmptyValues`; all other records get multi-line block form.
(The newline-freedom hypotheses say the record data itself carries no
embedded newline characters.) -/
theorem c7_inline_record_serialization (om : Bool) (ind : Nat)
    (sec fs : List (String × JVal)) (key : String)
    (hsec : jentsNoNL sec = true) (hfs : jentsNoNL fs = true)
    (hkey : noNL key = true) (hck : isCommentKey key = false) :
    isSingleLine (writeSectionEntry om ind sec (key, JVal.obj fs)) = true ↔
      (isaEq (JVal.obj fs) "PBXBuildFile" = true ∨
       isaEq (JVal.obj fs) "PBXFileReference" = true) := by
  by_cases hb : (isaEq (JVal.obj fs) "PBXBuildFile" ||
      isaEq (JVal.obj fs) "PBXFileReference") = true
  · have hout : writeSectionEntry om ind sec (key, JVal.obj fs) =
        writeInlineObject om ind key (commentOf sec key) fs := by
      rw [writeSectionEntry, hck]
      simp only [Bool.false_eq_true, if_false, hb, if_true]
    have hparts := (inlineParts_noNL om).1 key (commentOf sec key) fs hkey
      (fun d hd => commentOf_noNL hsec hd) hfs
    have hsl : isSingleLine (writeSectionEntry om ind sec (key, JVal.obj fs)) = true := by
      rw [hout, writeInlineObject]
      exact isSingleLine_append_newline
        (noNL_append.2 ⟨noNL_indentStr ind, jsTrim_noNL (join_noNL hparts)⟩)
    rw [Bool.or_eq_true] at hb
    exact iff_of_true hsl hb
  · have hout : writeSectionEntry om ind sec (key, JVal.obj fs) =
        (match commentOf sec key with
         | some c => indentStr ind ++ key ++ " /* " ++ jsFmt c ++ " */ = \x7b\n"
         | none => indentStr ind ++ key ++ " = \x7b\n") ++
        writeObjectF om (ind + 1) (JVal.obj fs) ++
        indentStr ind ++ "\x7d;\n" := by
      rw [writeSectionEntry, hck]
      simp only [Bool.false_eq_true, if_false]
      rw [if_neg (by simp [hb])]
    have hsl : isSingleLine (writeSectionEntry om ind sec (key, JVal.obj fs)) = false := by
      rw [hout]
      apply isSingleLine_false_two
      · rw [String.data_append]
        apply List.mem_append.2
        left
        rw [String.data_append]
        apply List.mem_append.2
        left
        rcases hcmt : commentOf sec key with _ | c
        · rw [String.data_append]
          exact List.mem_append.2 (Or.inr (by decide))
        · rw [String.data_append]
          exact List.mem_append.2 (Or.inr (by decide))
      · decide
    rw [Bool.or_eq_true] at hb
    exact iff_of_false (by simp [hsl]) hb

/-- Concrete file-reference record used to witness C7. -/
def c7FsW : List (String × JVal) :=
  [("isa", JVal.str "PBXFileReference"),
   ("fileEncoding", JVal.str "4"),
   ("lastKnownFileType", JVal.str "sourcecode.c.h"),
   ("path", JVal.str "ViewController.h"),
   ("sourceTree", JVal.str "\"<group>\"")]

/-- Concrete section (record plus its comment shadow) used to witness C7. -/
def c7SecW : List (String × JVal) :=
  [("FDEF0123456789ABCDEF0123", JVal.obj c7FsW),
   ("FDEF0123456789ABCDEF0123_comment", JVal.str "ViewController.h")]

theorem c7_witness :
    jentsNoNL c7SecW = true ∧ jentsNoNL c7FsW = true ∧
    noNL "FDEF0123456789ABCDEF0123" = true ∧
    isCommentKey "FDEF0123456789ABCDEF0123" = false ∧
    (isSingleLine (writeSectionEntry false 2 c7SecW
        ("FDEF0123456789ABCDEF0123", JVal.obj c7FsW)) = true ↔
      (isaEq (JVal.obj c7FsW) "PBXBuildFile" = true ∨
       isaEq (JVal.obj c7FsW) "PBXFileReference" = true)) := by
  have h1 : jentsNoNL c7SecW = true := by
    simp only [c7SecW, c7FsW, jentsNoNL, jvalNoNL]; decide
  have h2 : jentsNoNL c7FsW = true := by
    simp only [c7FsW, jentsNoNL, jvalNoNL]; decide
  exact ⟨h1, h2, by decide, by decide,
    c7_inline_record_serialization false 2 c7SecW c7FsW "FDEF0123456789ABCDEF0123"
      h1 h2 (by decide) (by decide)⟩

/-! ### C8: the `omitEmptyValues` switch -/

mutual

/-- No `null`/`undefined` value occurs anywhere in the data. -/
def jvalNoEmpty : JVal → Bool
  | .str _ => true
  | .null => false
  | .undef => false
  | .arr ys => jvalsNoEmpty ys
  | .obj fs => jentsNoEmpty fs
termination_by v => sizeOf v
decreasing_by all_goals (simp_wf; try omega)

def jvalsNoEmpty : List JVal → Bool
  | [] => true
  | y :: ys => jvalNoEmpty y && jvalsNoEmpty ys
termination_by l => sizeOf l
decreasing_by all_goals (simp_wf; try omega)

def jentsNoEmpty : List (String × JVal) → Bool
  | [] => true
  | (_, v) :: rest => jvalNoEmpty v && jentsNoEmpty rest
termination_by l => sizeOf l
decreasing_by all_goals (simp_wf; try omega)

end

/-- On data without `null`/`undefined` values, the writer's output does not
depend on the `omitEmptyValues` switch. -/
theorem writer_omit_irrelevant :
    (∀ (ind : Nat) (whole l : List (String × JVal)), jentsNoEmpty l = true →
      writeObjectFields true ind whole l = writeObjectFields false ind whole l) ∧
    (∀ (ind : Nat) (xs : List JVal) (name : String), jvalsNoEmpty xs = true →
      writeArray true ind xs name = writeArray false ind xs name) ∧
    (∀ (ind : Nat) (xs : List JVal), jvalsNoEmpty xs = true →
      writeArrayEntries true ind xs = writeArrayEntries false ind xs) ∧
    (∀ (ind i : Nat) (xs : List JVal), jvalsNoEmpty xs = true →
      writeArrayAsObj true ind i xs = writeArrayAsObj false ind i xs) := by
  apply writeObjectFields.mutual_induct true
    (fun ind whole l => jentsNoEmpty l = true →
      writeObjectFields true ind whole l = writeObjectFields false ind whole l)
    (fun ind xs name => jvalsNoEmpty xs = true →
      writeArray true ind xs name = writeArray false ind xs name)
    (fun ind xs => jvalsNoEmpty xs = true →
      writeArrayEntries true ind xs = writeArrayEntries false ind xs)
    (fun ind i xs => jvalsNoEmpty xs = true →
      writeArrayAsObj true ind i xs = writeArrayAsObj false ind i xs)
  · intro ind whole _; rw [writeObjectFields, writeObjectFields]
  · intro ind whole key v rest ihv ihrest hl
    rw [jentsNoEmpty, Bool.and_eq_true] at hl
    rw [writeObjectFields, writeObjectFields]
    rw [ihrest hl.2]
    congr 1
    by_cases hck : isCommentKey key = true
    · rw [if_pos hck, if_pos hck]
    rw [if_neg hck, if_neg hck]
    rcases v with s | _ | _ | xs | fs
    · rfl
    · exact absurd hl.1 (by rw [jvalNoEmpty]; decide)
    · exact absurd hl.1 (by rw [jvalNoEmpty]; decide)
    · exact ihv (by rw [jvalNoEmpty] at hl; exact hl.1)
    · exact congrArg
        (fun X => indentStr ind ++ key ++ " = \x7b\n" ++ X ++
          indentStr ind ++ "\x7d;\n")
        (ihv (by rw [jvalNoEmpty] at hl; exact hl.1))
  · intro ind xs name ih hxs
    rw [writeArray, writeArray, ih hxs]
  · intro ind _; rw [writeArrayEntries, writeArrayEntries]
  · intro ind e rest ihe ihrest hl
    rw [jvalsNoEmpty, Bool.and_eq_true] at hl
    rcases e with s | _ | _ | ys | fs
    · rw [writeArrayEntries, writeArrayEntries, ihrest hl.2]
      all_goals exact fun x h => JVal.noConfusion h
    · exact absurd hl.1 (by rw [jvalNoEmpty]; decide)
    · exact absurd hl.1 (by rw [jvalNoEmpty]; decide)
    · rw [writeArrayEntries, writeArrayEntries, ihrest hl.2,
        ihe (by rw [jvalNoEmpty] at hl; exact hl.1)]
    · rw [writeArrayEntries, writeArrayEntries, ihrest hl.2]
      congr 1
      have hfs : jentsNoEmpty fs = true := by rw [jvalNoEmpty] at hl; exact hl.1
      have hblock :
          (indentStr ind ++ "\x7b\n" ++
            writeObjectFields true (ind + 1) fs fs ++
            indentStr ind ++ "\x7d,\n") =
          (indentStr ind ++ "\x7b\n" ++
            writeObjectFields false (ind + 1) fs fs ++
            indentStr ind ++ "\x7d,\n") :=
        congrArg
          (fun X => indentStr ind ++ "\x7b\n" ++ X ++
            indentStr ind ++ "\x7d,\n")
          (ihe.1 hfs)
      rcases hv : fGet fs "value" with _ | v <;> rcases hc : fGet fs "comment" with _ | c <;>
        simp only [hv, hc]
      · exact hblock
      · exact hblock
      · exact hblock
      · by_cases ht : truthyF v = true ∧ truthyF c = true
        · rw [if_pos ht, if_pos ht]
        · rw [if_neg ht, if_neg ht]; exact hblock
  · intro ind x _; rw [writeArrayAsObj, writeArrayAsObj]
  · intro ind i y ys ihy ihrest hl
    rw [jvalsNoEmpty, Bool.and_eq_true] at hl
    rcases y with s | _ | _ | xs | fs
    · rw [writeArrayAsObj, writeArrayAsObj, ihrest hl.2]
      · rfl
      all_goals exact fun x h => JVal.noConfusion h
    · exact absurd hl.1 (by rw [jvalNoEmpty]; decide)
    · exact absurd hl.1 (by rw [jvalNoEmpty]; decide)
    · rw [writeArrayAsObj, writeArrayAsObj, ihrest hl.2,
        ihy (by rw [jvalNoEmpty] at hl; exact hl.1)]
    · rw [writeArrayAsObj, writeArrayAsObj, ihrest hl.2]
      exact congrArg
        (fun X => X ++ writeArrayAsObj false ind (i + 1) ys)
        (congrArg
          (fun X => indentStr ind ++ toString i ++ " = \x7b\n" ++ X ++
            indentStr ind ++ "\x7d;\n")
          (ihy (by rw [jvalNoEmpty] at hl; exact hl.1)))

theorem key_ne_comment (k : String) : (k == k ++ "_comment") = false := by
  rw [beq_eq_false_iff_ne]
  intro h
  have hlen := congrArg String.length h
  rw [String.length_append] at hlen
  have : ("_comment" : String).length = 8 := by decide
  omega

theorem commentOf_single {k : String} {v : JVal} : commentOf [(k, v)] k = none := by
  have h : fGet [(k, v)] (k ++ "_comment") = none := by
    simp [fGet, List.find?, key_ne_comment]
  rw [commentOf, h]

/-- **C8** — With the writer's default configuration (`omitEmptyValues`
defaults to `false`), a scalar field holding `null`/`undefined` is still
emitted as `<key> = <value>;`; with `omitEmptyValues: true` the field is
skipped entirely; and on fields holding no `null`/`undefined` values the two
configurations emit identical output. -/
theorem c8_omit_empty_values (ind : Nat) (k : String)
    (hck : isCommentKey k = false) :
    writerOmitEmptyValues none = false ∧
    writeObjectFields false ind [(k, JVal.null)] [(k, JVal.null)] =
      indentStr ind ++ k ++ " = " ++ jsFmt JVal.null ++ ";\n" ∧
    writeObjectFields false ind [(k, JVal.undef)] [(k, JVal.undef)] =
      indentStr ind ++ k ++ " = " ++ jsFmt JVal.undef ++ ";\n" ∧
    writeObjectFields true ind [(k, JVal.null)] [(k, JVal.null)] = "" ∧
    writeObjectFields true ind [(k, JVal.undef)] [(k, JVal.undef)] = "" ∧
    (∀ whole fs : List (String × JVal), jentsNoEmpty fs = true →
      writeObjectFields true ind whole fs = writeObjectFields false ind whole fs) := by
  have hnull : jsFmt JVal.null = "null" := by rw [jsFmt]
  have hundef : jsFmt JVal.undef = "undefined" := by rw [jsFmt]
  refine ⟨rfl, ?_, ?_, ?_, ?_, fun whole fs h => writer_omit_irrelevant.1 ind whole fs h⟩ <;>
    rw [writeObjectFields, writeObjectFields] <;>
    simp [hck, commentOf_single, isEmptyScalar]

theorem c8_witness :
    isCommentKey "name" = false ∧
    (writerOmitEmptyValues none = false ∧
     writeObjectFields false 2 [("name", JVal.null)] [("name", JVal.null)] =
       indentStr 2 ++ "name" ++ " = " ++ jsFmt JVal.null ++ ";\n" ∧
     writeObjectFields false 2 [("name", JVal.undef)] [("name", JVal.undef)] =
       indentStr 2 ++ "name" ++ " = " ++ jsFmt JVal.undef ++ ";\n" ∧
     writeObjectFields true 2 [("name", JVal.null)] [("name", JVal.null)] = "" ∧
     writeObjectFields true 2 [("name", JVal.undef)] [("name", JVal.undef)] = "" ∧
     (∀ whole fs : List (String × JVal), jentsNoEmpty fs = true →
       writeObjectFields true 2 whole fs = writeObjectFields false 2 whole fs)) :=
  ⟨by decide, c8_omit_empty_values 2 "name" (by decide)⟩

/-! ## The object-graph store: `lib/pbxProject.js`

`this.hash.project.objects` maps section names to sections; a section maps
24-hex-digit keys to records and `<key>_comment` keys to comment-shadow
strings.  Sections are association lists in JS own-property insertion order
(the keys are never array indices).  The store is modelled with the sections
the verified operations touch. -/

/-- One entry of a section: a record, or a comment-shadow string. -/
inductive SEnt (α : Type) where
  | recd : α → SEnt α
  | cmt : String → SEnt α
  deriving DecidableEq, Repr

/-- A section (bucket) of the store. -/
abbrev Sect (α : Type) : Type := List (String × SEnt α)

/-- JS property read `m[k]`. -/
def jsGet {α : Type} (m : List (String × α)) (k : String) : Option α :=
  (m.find? fun p => p.1 == k).map Prod.snd

/-- JS property write `m[k] = v`: updates in place when the key exists
(keeping its position), appends otherwise. -/
def jsSet {α : Type} (m : List (String × α)) (k : String) (v : α) :
    List (String × α) :=
  if m.any (fun p => p.1 == k) then
    m.map fun p => if p.1 == k then (k, v) else p
  else m ++ [(k, v)]

/-- JS `delete m[k]`. -/
def jsDelete {α : Type} (m : List (String × α)) (k : String) :
    List (String × α) :=
  m.filter fun p => p.1 != k

/-- `nonComments` of `pbxProject.js`: the entries whose key does not match
`COMMENT_KEY`, in order. -/
def nonComments {α : Type} (m : List (String × α)) : List (String × α) :=
  m.filter fun p => !isCommentKey p.1

/-- A `PBXFileReference` record (the fields `pbxFileReferenceObj`
produces; absent properties are `none`). -/
structure FileRefRecord where
  name : Option String := none
  path : Option String := none
  sourceTree : Option String := none
  fileEncoding : Option Nat := none
  lastKnownFileType : Option String := none
  explicitFileType : Option String := none
  includeInIndex : Option Nat := none
  deriving DecidableEq, Repr

/-- A `PBXBuildFile` record (`pbxBuildFileObj`): the `fileRef_comment`
property is a field of the record itself. -/
structure BuildFileRecord where
  fileRef : Option String := none
  fileRefComment : Option String := none
  settings : Option FileSettings := none
  deriving DecidableEq, Repr

/-- A `(value, comment)` reference entry, as produced by `pbxGroupChild` and
`pbxBuildPhaseObj`. -/
structure GroupChild where
  value : Option String := none
  comment : Option String := none
  deriving DecidableEq, Repr

/-- A `PBXGroup`/`PBXVariantGroup` record. -/
structure GroupRecord where
  name : Option String := none
  path : Option String := none
  sourceTree : Option String := none
  children : Option (List GroupChild) := none
  deriving DecidableEq, Repr

/-- A `PBXSourcesBuildPhase` record (the fields the verified operations
read; build phases always carry a `files` array). -/
structure PhaseRecord where
  files : List GroupChild := []
  deriving DecidableEq, Repr

/-- A `PBXNativeTarget` record (the fields the verified operations read). -/
structure TargetRecord where
  name : Option String := none
  buildConfigurationList : Option String := none
  buildPhases : List GroupChild := []
  dependencies : List GroupChild := []
  deriving DecidableEq, Repr

/-- An `XCBuildConfiguration` record.  Build-setting values are modelled as
strings (the only shape the verified claims exercise). -/
structure ConfigRecord where
  name : Option String := none
  buildSettings : List (String × String) := []
  deriving DecidableEq, Repr

/-- An `XCConfigurationList` record. -/
structure ConfigListRecord where
  buildConfigurations : List GroupChild := []
  deriving DecidableEq, Repr

/-- A `PBXContainerItemProxy` record. -/
structure ProxyRecord where
  containerPortal : Option String := none
  containerPortalComment : Option String := none
  proxyType : Nat := 0
  remoteGlobalIDString : Option String := none
  remoteInfo : Option String := none
  deriving DecidableEq, Repr

/-- A `PBXTargetDependency` record. -/
structure DepRecord where
  target : Option String := none
  targetComment : Option String := none
  targetProxy : Option String := none
  targetProxyComment : Option String := none
  deriving DecidableEq, Repr

/-- `hash.project.objects`. -/
structure Objects where
  pbxBuildFile : Sect BuildFileRecord := []
  pbxFileReference : Sect FileRefRecord := []
  pbxGroup : Sect GroupRecord := []
  pbxVariantGroup : Sect GroupRecord := []
  pbxSourcesBuildPhase : Sect PhaseRecord := []
  pbxNativeTarget : Sect TargetRecord := []
  xcBuildConfiguration : Sect ConfigRecord := []
  xcConfigurationList : Sect ConfigListRecord := []
  pbxTargetDependency : Sect DepRecord := []
  pbxContainerItemProxy : Sect ProxyRecord := []
  deriving DecidableEq, Repr

/-- `hash.project` (the fields the verified operations read). -/
structure ProjectHash where
  objects : Objects := {}
  rootObject : Option String := none
  rootObjectComment : Option String := none
  deriving DecidableEq, Repr

/-- The keys of a section. -/
def sectKeys {α : Type} (s : Sect α) : List String := s.map Prod.fst

/-- The key lists of all buckets, concatenated (the `for (key in sections)`
loop of `allUuids`). -/
def allKeys (o : Objects) : List String :=
  sectKeys o.pbxBuildFile ++ sectKeys o.pbxFileReference ++
  sectKeys o.pbxGroup ++ sectKeys o.pbxVariantGroup ++
  sectKeys o.pbxSourcesBuildPhase ++ sectKeys o.pbxNativeTarget ++
  sectKeys o.xcBuildConfiguration ++ sectKeys o.xcConfigurationList ++
  sectKeys o.pbxTargetDependency ++ sectKeys o.pbxContainerItemProxy

/-- `pbxProject.prototype.allUuids`: every bucket key that is not a comment
key and has length 24. -/
def allUuids (o : Objects) : List String :=
  (allKeys o).filter fun str => !isCommentKey str && str.length == 24

/-! ### The identifier generator: `generateUuid` -/

/-- One lowercase hex digit. -/
def hexChar (n : Fin 16) : Char := "0123456789abcdef".data.getD n.val '0'

/-- The 32 random nibbles behind one `uuid.v4()` draw.  Modelled from the
`uuid` dependency's v4 format: 32 hex nibbles rendered in 8-4-4-4-12 dashed
groups; the fixed version/variant nibbles are particular values of the
arbitrary nibble stream, so proving over all streams covers them. -/
def Entropy : Type := Fin 32 → Fin 16

/-- The nibble characters of one draw, in order. -/
def uuidNibbles (e : Entropy) : List Char :=
  (List.finRange 32).map fun i => hexChar (e i)

/-- The dashed `uuid.v4()` string. -/
def uuidV4 (e : Entropy) : String :=
  ⟨(uuidNibbles e).take 8⟩ ++ "-" ++
  ⟨((uuidNibbles e).drop 8).take 4⟩ ++ "-" ++
  ⟨((uuidNibbles e).drop 12).take 4⟩ ++ "-" ++
  ⟨((uuidNibbles e).drop 16).take 4⟩ ++ "-" ++
  ⟨(uuidNibbles e).drop 20⟩

/-- The candidate expression of `generateUuid`: strip the dashes from a
`uuid.v4()` draw, take the first 24 characters, uppercase them. -/
def uuidCandidate (e : Entropy) : String :=
  ⟨(((uuidV4 e).data.filter fun c => c ≠ '-').take 24).map Char.toUpper⟩

/-- `pbxProject.prototype.generateUuid`: draw, reject any candidate already
present as a key in a bucket, retry with fresh randomness.  The unbounded
JS recursion is modelled by an explicit stream of draws; `none` means the
stream was exhausted with every draw colliding. -/
def generateUuid (o : Objects) : List Entropy → Option String
  | [] => none
  | e :: rest =>
    let id := uuidCandidate e
    if (allUuids o).contains id then generateUuid o rest else some id

/-- Uppercase hex digit (`0`–`9`, `A`–`F`). -/
def isUpperHex (c : Char) : Bool :=
  (('0' ≤ c ∧ c ≤ '9') ∨ ('A' ≤ c ∧ c ≤ 'F') : Prop)

theorem hexChar_ne_dash : ∀ n : Fin 16, hexChar n ≠ '-' := by decide

theorem hexChar_upper : ∀ n : Fin 16, isUpperHex (hexChar n).toUpper = true := by
  decide

theorem uuidNibbles_length (e : Entropy) : (uuidNibbles e).length = 32 := by
  simp [uuidNibbles]

theorem uuidNibbles_mem {e : Entropy} {c : Char} (h : c ∈ uuidNibbles e) :
    ∃ n : Fin 16, c = hexChar n := by
  obtain ⟨i, _, rfl⟩ := List.mem_map.1 h
  exact ⟨e i, rfl⟩

/-- Stripping the dashes from the dashed form recovers the nibble list. -/
theorem uuidV4_strip (e : Entropy) :
    (uuidV4 e).data.filter (fun c => c ≠ '-') = uuidNibbles e := by
  have hseg : ∀ l : List Char, (∀ c ∈ l, c ∈ uuidNibbles e) →
      l.filter (fun c => c ≠ '-') = l := by
    intro l hl
    apply List.filter_eq_self.2
    intro c hc
    obtain ⟨n, rfl⟩ := uuidNibbles_mem (hl c hc)
    simpa using hexChar_ne_dash n
  have hdash : (("-" : String).data.filter fun c => c ≠ '-') = [] := by decide
  rw [show (uuidV4 e).data =
      ((uuidNibbles e).take 8 ++ ("-" : String).data ++
       (((uuidNibbles e).drop 8).take 4) ++ ("-" : String).data ++
       (((uuidNibbles e).drop 12).take 4) ++ ("-" : String).data ++
       (((uuidNibbles e).drop 16).take 4) ++ ("-" : String).data ++
       ((uuidNibbles e).drop 20)) from by
    simp [uuidV4, String.data_append]]
  simp only [List.filter_append, hdash]
  rw [hseg _ (fun c hc => List.mem_of_mem_take hc),
      hseg _ (fun c hc => List.mem_of_mem_drop (List.mem_of_mem_take hc)),
      hseg _ (fun c hc => List.mem_of_mem_drop (List.mem_of_mem_take hc)),
      hseg _ (fun c hc => List.mem_of_mem_drop (List.mem_of_mem_take hc)),
      hseg _ (fun c hc => List.mem_of_mem_drop hc)]
  simp only [List.append_nil]
  rw [← List.take_add]; norm_num
  rw [← List.append_assoc, ← List.take_add]; norm_num
  rw [← List.append_assoc, ← List.take_add]; norm_num

theorem uuidCandidate_length (e : Entropy) : (uuidCandidate e).length = 24 := by
  have : (uuidCandidate e).data = ((uuidNibbles e).take 24).map Char.toUpper := by
    rw [uuidCandidate, uuidV4_strip]
  rw [String.length, this, List.length_map, List.length_take, uuidNibbles_length]
  decide

theorem uuidCandidate_upperHex (e : Entropy) :
    ∀ c ∈ (uuidCandidate e).data, isUpperHex c = true := by
  intro c hc
  rw [show (uuidCandidate e).data = ((uuidNibbles e).take 24).map Char.toUpper from by
    rw [uuidCandidate, uuidV4_strip]] at hc
  obtain ⟨d, hd, rfl⟩ := List.mem_map.1 hc
  obtain ⟨n, rfl⟩ := uuidNibbles_mem (List.mem_of_mem_take hd)
  exact hexChar_upper n

/-- A string of uppercase hex digits never matches `COMMENT_KEY`. -/
theorem isCommentKey_false_of_upperHex {s : String}
    (h : ∀ c ∈ s.data, isUpperHex c = true) : isCommentKey s = false := by
  rw [isCommentKey]
  by_contra hne
  rw [Bool.not_eq_false] at hne
  obtain ⟨t, ht⟩ : ∃ t, s.data = t ++ "_comment".data :=
    (List.isSuffixOf_iff_suffix.1 hne).elim fun t ht => ⟨t, ht.symm⟩
  have hu : ('_' : Char) ∈ s.data := by
    rw [ht]; exact List.mem_append.2 (Or.inr (by decide))
  have := h '_' hu
  simp [isUpperHex] at this

theorem generateUuid_spec {o : Objects} {es : List Entropy} {id : String}
    (h : generateUuid o es = some id) :
    id.length = 24 ∧ (∀ c ∈ id.data, isUpperHex c = true) ∧
    isCommentKey id = false ∧ id ∉ allUuids o := by
  induction es with
  | nil => rw [generateUuid] at h; exact absurd h (by simp)
  | cons e rest ih =>
    rw [generateUuid] at h
    by_cases hc : (allUuids o).contains (uuidCandidate e) = true
    · rw [if_pos hc] at h; exact ih h
    · rw [if_neg (by simpa using hc)] at h
      obtain rfl := Option.some.inj h
      refine ⟨uuidCandidate_length e, uuidCandidate_upperHex e,
        isCommentKey_false_of_upperHex (uuidCandidate_upperHex e), ?_⟩
      intro hmem
      exact hc ((List.elem_iff).2 hmem)

/-- The ten buckets of the store, as insertion targets. -/
inductive Bucket where
  | buildFile | fileRef | group | variantGroup | sourcesPhase
  | nativeTarget | buildConfig | configList | targetDep | containerProxy
  deriving DecidableEq, Repr

/-- Insert a (default-valued) record at a fresh key into the chosen
bucket — the key side of any of the store's record-creating operations. -/
def insertRecord (o : Objects) (b : Bucket) (id : String) : Objects :=
  match b with
  | .buildFile => { o with pbxBuildFile := jsSet o.pbxBuildFile id (.recd {}) }
  | .fileRef => { o with pbxFileReference := jsSet o.pbxFileReference id (.recd {}) }
  | .group => { o with pbxGroup := jsSet o.pbxGroup id (.recd {}) }
  | .variantGroup => { o with pbxVariantGroup := jsSet o.pbxVariantGroup id (.recd {}) }
  | .sourcesPhase => { o with pbxSourcesBuildPhase := jsSet o.pbxSourcesBuildPhase id (.recd {}) }
  | .nativeTarget => { o with pbxNativeTarget := jsSet o.pbxNativeTarget id (.recd {}) }
  | .buildConfig => { o with xcBuildConfiguration := jsSet o.xcBuildConfiguration id (.recd {}) }
  | .configList => { o with xcConfigurationList := jsSet o.xcConfigurationList id (.recd {}) }
  | .targetDep => { o with pbxTargetDependency := jsSet o.pbxTargetDependency id (.recd {}) }
  | .containerProxy => { o with pbxContainerItemProxy := jsSet o.pbxContainerItemProxy id (.recd {}) }

/-- Run a sequence of generate-and-insert steps, each drawing from its own
entropy stream; returns the final store and the generated identifiers. -/
def genInsertAll (o : Objects) : List (Bucket × List Entropy) →
    Option (Objects × List String)
  | [] => some (o, [])
  | (b, es) :: steps =>
    match generateUuid o es with
    | none => none
    | some id =>
      match genInsertAll (insertRecord o b id) steps with
      | none => none
      | some (o2, ids) => some (o2, id :: ids)

theorem sectKeys_jsSet_fresh {α : Type} {m : Sect α} {k : String} {v : SEnt α}
    (h : k ∉ sectKeys m) : sectKeys (jsSet m k v) = sectKeys m ++ [k] := by
  have hany : m.any (fun p => p.1 == k) = false := by
    rw [Bool.eq_false_iff]
    intro hc
    obtain ⟨p, hp, he⟩ := List.any_eq_true.1 hc
    apply h
    rw [← beq_iff_eq.1 he]
    exact List.mem_map.2 ⟨p, hp, rfl⟩
  rw [jsSet, hany]
  simp [sectKeys]

theorem allKeys_insert_perm {o : Objects} {b : Bucket} {id : String}
    (h : id ∉ allKeys o) :
    (allKeys (insertRecord o b id)).Perm (id :: allKeys o) := by
  have hnot : ∀ s : List String, (∀ x ∈ s, x ∈ allKeys o) → id ∉ s :=
    fun s hs hmem => h (hs id hmem)
  cases b <;>
    (rw [List.perm_iff_count]; intro a;
     simp only [insertRecord, allKeys, List.count_append, List.count_cons] <;>
     rw [sectKeys_jsSet_fresh (by
       intro hmem
       apply h
       simp only [allKeys, List.mem_append]
       tauto)] <;>
     simp [List.count_append, List.count_cons] <;> omega)

theorem allUuids_insert_perm {o : Objects} {b : Bucket} {id : String}
    (hlen : id.length = 24) (hck : isCommentKey id = false)
    (hfresh : id ∉ allUuids o) :
    (allUuids (insertRecord o b id)).Perm (id :: allUuids o) := by
  have hid : (!isCommentKey id && id.length == 24) = true := by
    rw [hck, hlen]; decide
  have hK : id ∉ allKeys o := fun hmem =>
    hfresh (List.mem_filter.2 ⟨hmem, hid⟩)
  have hfilter := (allKeys_insert_perm (b := b) hK).filter
    (fun str => !isCommentKey str && str.length == 24)
  have hcons : List.filter (fun str => !isCommentKey str && str.length == 24)
      (id :: allKeys o) = id :: allUuids o := by
    rw [List.filter_cons]
    simp only [hid, if_true]
    rfl
  rw [hcons] at hfilter
  exact hfilter

/-- **C1** — Every identifier `generateUuid` returns is a 24-character
uppercase-hexadecimal string absent from every bucket of the store; and
over any sequence of generate-and-insert steps, the generated identifiers
together with the pre-existing ones are pairwise distinct. -/
theorem c1_uuid_generation_unique :
    (∀ (o : Objects) (es : List Entropy) (id : String),
      generateUuid o es = some id →
      id.length = 24 ∧ (∀ c ∈ id.data, isUpperHex c = true) ∧
      id ∉ allUuids o) ∧
    (∀ (steps : List (Bucket × List Entropy)) (o o2 : Objects)
       (ids : List String),
      genInsertAll o steps = some (o2, ids) → (allUuids o).Nodup →
      (ids ++ allUuids o).Nodup) := by
  constructor
  · intro o es id h
    obtain ⟨h1, h2, _, h4⟩ := generateUuid_spec h
    exact ⟨h1, h2, h4⟩
  · intro steps
    induction steps with
    | nil =>
      intro o o2 ids h hnd
      rw [genInsertAll] at h
      obtain ⟨rfl, rfl⟩ := Prod.mk.injEq .. ▸ Option.some.inj h
      simpa using hnd
    | cons step rest ih =>
      obtain ⟨b, es⟩ := step
      intro o o2 ids h hnd
      rw [genInsertAll] at h
      rcases hg : generateUuid o es with _ | id0
      · rw [hg] at h; exact absurd h (by simp)
      simp only [hg] at h
      rcases hrec : genInsertAll (insertRecord o b id0) rest with _ | p
      · simp only [hrec] at h; exact absurd h (by simp)
      obtain ⟨o2', ids'⟩ := p
      simp only [hrec] at h
      obtain ⟨rfl, rfl⟩ := Prod.mk.injEq .. ▸ Option.some.inj h
      obtain ⟨hlen, hhex, hck, hfresh⟩ := generateUuid_spec hg
      have hperm := allUuids_insert_perm (b := b) hlen hck hfresh
      have hnd2 : (allUuids (insertRecord o b id0)).Nodup :=
        hperm.nodup_iff.2 (List.nodup_cons.2 ⟨hfresh, hnd⟩)
      have ihh := ih (insertRecord o b id0) o2' ids' hrec hnd2
      have hp2 : (ids' ++ allUuids (insertRecord o b id0)).Perm
          (id0 :: (ids' ++ allUuids o)) :=
        (hperm.append_left ids').trans List.perm_middle
      exact hp2.nodup_iff.1 ihh

/-- All-zero entropy draw. -/
def eW : Entropy := fun _ => 0

/-- All-one entropy draw. -/
def eW2 : Entropy := fun _ => 1

def id0W : String := "000000000000000000000000"

def id1W : String := "111111111111111111111111"

/-- Witness store: empty. -/
def gW : Objects := {}

def stepsW : List (Bucket × List Entropy) :=
  [(Bucket.buildFile, [eW]), (Bucket.fileRef, [eW, eW2])]

theorem c1_witness :
    (id0W.length = 24 ∧ (∀ c ∈ id0W.data, isUpperHex c = true) ∧
      id0W ∉ allUuids gW) ∧
    ([id0W, id1W] ++ allUuids gW).Nodup := by
  constructor
  · exact c1_uuid_generation_unique.1 gW [eW] id0W (by decide)
  · exact c1_uuid_generation_unique.2 stepsW gW
      (insertRecord (insertRecord gW Bucket.buildFile id0W) Bucket.fileRef id1W)
      [id0W, id1W] (by decide) (by decide)

/-! ## Graph mutation operations: `lib/pbxProject.js`

The operations call `generateUuid` for every fresh identifier; its result is
characterised by `generateUuid_spec`, and the operations take the fresh
identifiers as explicit arguments.  Code that can throw a `TypeError` is
embedded in `Except String`. -/

/-- Truthiness of a section-entry lookup result (records are objects, hence
truthy; comment strings are truthy unless empty; a missing key is
`undefined`). -/
def entTruthy {α : Type} : Option (SEnt α) → Bool
  | some (.recd _) => true
  | some (.cmt c) => c ≠ ""
  | none => false

/-- `section[key] == name` for the comment-scanning loops. (A record
compared against a string via `==` coerces to `"[object Object]"`; that
coercion never matches the names this system uses and is modelled as
false.) -/
def sentEqStr {α : Type} : SEnt α → String → Bool
  | .cmt c, n => c == n
  | .recd _, _ => false

/-- `pbxProject.prototype.hasFile`: scan the non-comment entries of the
file-reference bucket for one whose `path` equals the argument, in plain or
double-quoted form; returns the matching entry (the caller tests
truthiness), else `false`. -/
def hasFileEnt (o : Objects) (filePath : Option String) :
    Option (SEnt FileRefRecord) :=
  (nonComments o.pbxFileReference).findSome? fun p =>
    match p.2 with
    | .recd r =>
      if jsEqOO r.path filePath ||
         r.path == some ("\"" ++ jsShowO filePath ++ "\"") then some (.recd r)
      else none
    | .cmt c =>
      -- a string stored at a non-comment key has `path === undefined`
      if jsEqOO none filePath then some (.cmt c) else none

/-- The truth value `addFile`/`addPluginFile` test `hasFile` with. -/
def hasFileTruthy (o : Objects) (filePath : Option String) : Bool :=
  entTruthy (hasFileEnt o filePath)

/-- `pbxFileReferenceObj`: throws a `TypeError` when the descriptor has no
`path` (explicit-file-type descriptors). -/
def pbxFileReferenceObj (f : PbxFile) : Except String FileRefRecord :=
  match f.path with
  | none => .error "TypeError: Cannot read properties of undefined (reading 'replace')"
  | some p => .ok
    { name := some ("\"" ++ f.basename ++ "\"")
      path := some ("\"" ++ replBackslash p ++ "\"")
      sourceTree := some f.sourceTree
      fileEncoding := f.fileEncoding
      lastKnownFileType := f.lastKnownFileType
      explicitFileType := f.explicitFileType
      includeInIndex := some f.includeInIndex }

/-- `pbxFileReferenceComment`: `file.basename || path.basename(file.path)`.
(The fallback is only reachable with a present `path`: the record build
throws first otherwise.) -/
def pbxFileReferenceComment (f : PbxFile) : String :=
  if f.basename ≠ "" then f.basename else pathBasename (jsShowO f.path)

/-- `longComment`: `util.format("%s in %s", basename, group)`. -/
def longComment (f : PbxFile) : String :=
  f.basename ++ " in " ++ jsShowO f.group

/-- `pbxGroupChild`. -/
def pbxGroupChild (f : PbxFile) : GroupChild :=
  { value := f.fileRef, comment := some f.basename }

/-- `pbxBuildPhaseObj`. -/
def pbxBuildPhaseObj (f : PbxFile) : GroupChild :=
  { value := f.uuid, comment := some (longComment f) }

/-- `pbxBuildFileObj`. -/
def pbxBuildFileObj (f : PbxFile) : BuildFileRecord :=
  { fileRef := f.fileRef, fileRefComment := some f.basename,
    settings := f.settings }

/-- `pbxProject.prototype.addToPbxFileReferenceSection`. -/
def addToPbxFileReferenceSection (o : Objects) (f : PbxFile) :
    Except String Objects :=
  match pbxFileReferenceObj f with
  | .error e => .error e
  | .ok r =>
    let k := jsShowO f.fileRef
    let sec := jsSet o.pbxFileReference k (.recd r)
    let sec := jsSet sec (k ++ "_comment") (.cmt (pbxFileReferenceComment f))
    .ok { o with pbxFileReference := sec }

/-- `pbxProject.prototype.addToPbxBuildFileSection`. -/
def addToPbxBuildFileSection (o : Objects) (f : PbxFile) : Objects :=
  let k := jsShowO f.uuid
  let sec := jsSet o.pbxBuildFile k (.recd (pbxBuildFileObj f))
  let sec := jsSet sec (k ++ "_comment") (.cmt (longComment f))
  { o with pbxBuildFile := sec }

/-- `pbxProject.prototype.pbxGroupByName`, also yielding the key the
returned entry sits at (the callers mutate the returned record in place;
the pure model writes back through the key). -/
def pbxGroupByNameKey (o : Objects) (name : String) :
    Option (String × SEnt GroupRecord) :=
  (o.pbxGroup.find? fun p => isCommentKey p.1 && sentEqStr p.2 name).bind
    fun p =>
      (jsGet o.pbxGroup (stripCommentSuffix p.1)).map
        fun e => (stripCommentSuffix p.1, e)

/-- Strip one leading `<group>/` (or `<group>\`) from a path — the regular
expression `new RegExp('^' + group + '[\\\\/]')` of `correctForPath`, for
the letter-only group names the library uses. -/
def stripGroupPrefix (group p : String) : String :=
  if (group ++ "/").data.isPrefixOf p.data ∨
     (group ++ "\\").data.isPrefixOf p.data then
    ⟨p.data.drop (group.length + 1)⟩
  else p

/-- `correctForPath` (and `correctForPluginsPath` at group `"Plugins"`):
when the named group exists and has a truthy `path`, strip the group-name
prefix from the descriptor's path — reading `.replace` of a missing path
throws. -/
def correctForPath (f : PbxFile) (o : Objects) (group : String) :
    Except String PbxFile :=
  match pbxGroupByNameKey o group with
  | some (_, .recd g) =>
    if optTruthyS g.path then
      match f.path with
      | none => .error "TypeError: Cannot read properties of undefined (reading 'replace')"
      | some p => .ok { f with path := some (stripGroupPrefix group p) }
    else .ok f
  | _ => .ok f

def correctForPluginsPath (f : PbxFile) (o : Objects) : Except String PbxFile :=
  correctForPath f o "Plugins"

/-- The comment-shadow string of a section entry (`undefined` for a record
stored at a comment key, a shape outside this model's flows). -/
def sentCmtOpt {α : Type} : SEnt α → Option String
  | .cmt c => some c
  | .recd _ => none

/-- The `filePathToReference` construction of `addPbxGroup`: for every
comment entry, look up its record and map the record's `path` (JS-coerced
to a string key) to the file-reference key and the comment value; a comment
entry without its record makes the JS read `.path` of `undefined`. -/
def buildPathToRefGo (sec : Sect FileRefRecord) :
    List (String × SEnt FileRefRecord) →
    List (String × (String × Option String)) →
    Except String (List (String × (String × Option String)))
  | [], acc => .ok acc
  | (k, e) :: rest, acc =>
    if isCommentKey k then
      match jsGet sec (stripCommentSuffix k) with
      | none => .error "TypeError: Cannot read properties of undefined (reading 'path')"
      | some (.recd r) =>
        buildPathToRefGo sec rest
          (jsSet acc (jsShowO r.path) (stripCommentSuffix k, sentCmtOpt e))
      | some (.cmt _) =>
        buildPathToRefGo sec rest
          (jsSet acc "undefined" (stripCommentSuffix k, sentCmtOpt e))
    else buildPathToRefGo sec rest acc

/-- Write the new group record and its comment into the `PBXGroup`
section (the tail of `addPbxGroup`). -/
def addGroupFinish (o : Objects) (name ug : String)
    (children : List GroupChild) : Objects :=
  let grp : GroupRecord :=
    { name := some name, path := none,
      sourceTree := some DEFAULT_SOURCETREE, children := some children }
  { o with pbxGroup :=
      jsSet (jsSet o.pbxGroup ug (.recd grp)) (ug ++ "_comment") (.cmt name) }

/-- `pbxProject.prototype.addPbxGroup` at its modelled call site (a
one-element path array, no explicit path or source tree): resolve the path
against the file-reference bucket (plain, then quoted); on a miss build a
fresh descriptor with two fresh identifiers and insert its file-reference
and build-file records. -/
def addPbxGroupSingle (o : Objects) (filePath : Option String) (name : String)
    (ug u1 u2 : String) : Except String Objects :=
  match buildPathToRefGo o.pbxFileReference o.pbxFileReference [] with
  | .error e => .error e
  | .ok m =>
    let pk := jsShowO filePath
    match jsGet m pk with
    | some (frk, bn) =>
      .ok (addGroupFinish o name ug [{ value := some frk, comment := bn }])
    | none =>
      match jsGet m ("\"" ++ pk ++ "\"") with
      | some (frk, bn) =>
        .ok (addGroupFinish o name ug [{ value := some frk, comment := bn }])
      | none =>
        match filePath with
        | none => .error "TypeError: The path argument must be of type string"
        | some fp =>
          let nf0 := mkPbxFile fp {}
          let nf := { nf0 with uuid := some u1, fileRef := some u2 }
          match addToPbxFileReferenceSection o nf with
          | .error e => .error e
          | .ok o1 =>
            .ok (addGroupFinish (addToPbxBuildFileSection o1 nf) name ug
              [pbxGroupChild nf])

/-- `pbxProject.prototype.addToPluginsPbxGroup`: push onto the Plugins
group's children, creating the group when absent. -/
def addToPluginsPbxGroup (o : Objects) (f : PbxFile) (ug u1 u2 : String) :
    Except String Objects :=
  match pbxGroupByNameKey o "Plugins" with
  | none => addPbxGroupSingle o f.path "Plugins" ug u1 u2
  | some (_, .cmt c) =>
    if c = "" then addPbxGroupSingle o f.path "Plugins" ug u1 u2
    else .error "TypeError: Cannot read properties of undefined (reading 'push')"
  | some (k, .recd g) =>
    match g.children with
    | none => .error "TypeError: Cannot read properties of undefined (reading 'push')"
    | some ch =>
      let g2 : SEnt GroupRecord :=
        .recd { g with children := some (ch ++ [pbxGroupChild f]) }
      .ok { o with pbxGroup := jsSet o.pbxGroup k g2 }

/-- `pbxProject.prototype.addPluginFile`, with the fresh identifiers as
arguments (`uFileRef` for the file-reference slot; `ug`, `u1`, `u2` feed
`addPbxGroup` when the Plugins group must be created). -/
def addPluginFile (o : Objects) (p : String) (opt : PbxFileOptions)
    (uFileRef ug u1 u2 : String) : Except String (Option (PbxFile × Objects)) :=
  let f0 : PbxFile := { (mkPbxFile p opt) with plugin := true }
  match correctForPluginsPath f0 o with
  | .error e => .error e
  | .ok f1 =>
    if f1.path.isSome ∧ hasFileTruthy o f1.path then .ok none
    else
      let f2 := { f1 with fileRef := some uFileRef }
      match addToPbxFileReferenceSection o f2 with
      | .error e => .error e
      | .ok o1 =>
        match addToPluginsPbxGroup o1 f2 ug u1 u2 with
        | .error e => .error e
        | .ok o2 => .ok (some (f2, o2))

def getPBXGroupByKey (o : Objects) (k : String) : Option (SEnt GroupRecord) :=
  jsGet o.pbxGroup k

def getPBXVariantGroupByKey (o : Objects) (k : String) :
    Option (SEnt GroupRecord) :=
  jsGet o.pbxVariantGroup k

/-- `pbxProject.prototype.addToPbxGroupType` (file-object branch, the one
`addFile` reaches): push onto the group's children when the group exists
and has a children array. -/
def addToPbxGroupType (o : Objects) (f : PbxFile) (groupKey : String)
    (variant : Bool) : Objects :=
  let ent := if variant then jsGet o.pbxVariantGroup groupKey
             else jsGet o.pbxGroup groupKey
  match ent with
  | some (.recd g) =>
    match g.children with
    | some ch =>
      let g2 : SEnt GroupRecord :=
        .recd { g with children := some (ch ++ [pbxGroupChild f]) }
      if variant then
        { o with pbxVariantGroup := jsSet o.pbxVariantGroup groupKey g2 }
      else
        { o with pbxGroup := jsSet o.pbxGroup groupKey g2 }
    | none => o
  | _ => o

/-- `pbxProject.prototype.addFile`, with the fresh file-reference
identifier as an argument. -/
def addFile (o : Objects) (p : String) (group : String) (opt : PbxFileOptions)
    (uFileRef : String) : Except String (Option (PbxFile × Objects)) :=
  let f := mkPbxFile p opt
  if hasFileTruthy o f.path then .ok none
  else
    let f := { f with fileRef := some uFileRef }
    match addToPbxFileReferenceSection o f with
    | .error e => .error e
    | .ok o1 =>
      let o2 :=
        if entTruthy (getPBXGroupByKey o1 group) then
          addToPbxGroupType o1 f group false
        else if entTruthy (getPBXVariantGroupByKey o1 group) then
          addToPbxGroupType o1 f group true
        else o1
      .ok (some (f, o2))

/-- `pbxProject.prototype.buildPhase`: resolve `(group, target)` to the
phase comment key.  A falsy target yields `undefined`; a missing target
record throws; otherwise scan the target's `buildPhases` for the entry
whose comment equals the group and produce `value + "_comment"` (falling
off the end yields `undefined`). -/
def buildPhase (o : Objects) (group : String) (target : Option String) :
    Except String (Option String) :=
  if h : optTruthyS target = true then
    let t := target.get (by cases target <;> simp [optTruthyS] at h ⊢)
    match jsGet o.pbxNativeTarget t with
    | none => .error ("Invalid target: " ++ t)
    | some (.cmt _) => .ok none   -- a string has no buildPhases: loop no-op
    | some (.recd nt) =>
      .ok ((nt.buildPhases.find? fun bp => jsEqOS bp.comment group).map
        fun bp => jsShowO bp.value ++ "_comment")
  else .ok none

/-- `pbxProject.prototype.buildPhaseObject` instantiated at the
`PBXSourcesBuildPhase` section (the instance `addSourceFile` uses): scan
the section's comment keys — restricted to the `buildPhase` key when one
was found — for a comment equal to the group, and return the entry at the
stripped key together with that key. -/
def buildPhaseObjSources (o : Objects) (group : String)
    (target : Option String) :
    Except String (Option (String × SEnt PhaseRecord)) :=
  match buildPhase o group target with
  | .error e => .error e
  | .ok bp =>
    .ok ((o.pbxSourcesBuildPhase.find? fun p =>
        isCommentKey p.1 &&
        (match bp with | some b => p.1 == b | none => true) &&
        sentEqStr p.2 group).bind
      fun p =>
        (jsGet o.pbxSourcesBuildPhase (stripCommentSuffix p.1)).map
          fun e => (stripCommentSuffix p.1, e))

/-- `pbxProject.prototype.addToPbxSourcesBuildPhase`: push the build-phase
reference onto the resolved phase's `files`; a missing phase makes the JS
read `.files` of `null`, a string phase record makes it push onto
`undefined`. -/
def addToPbxSourcesBuildPhase (o : Objects) (f : PbxFile) :
    Except String Objects :=
  match buildPhaseObjSources o "Sources" f.target with
  | .error e => .error e
  | .ok none => .error "TypeError: Cannot read properties of null (reading 'files')"
  | .ok (some (_, .cmt _)) =>
    .error "TypeError: Cannot read properties of undefined (reading 'push')"
  | .ok (some (k, .recd ph)) =>
    let p2 : SEnt PhaseRecord := .recd { ph with files := ph.files ++ [pbxBuildPhaseObj f] }
    .ok { o with pbxSourcesBuildPhase := jsSet o.pbxSourcesBuildPhase k p2 }

/-- `pbxProject.prototype.addSourceFile` without a group argument (the
Cordova-plugin path): `addPluginFile`, then a fresh build-file identifier,
then the build-file record and the Sources-phase entry. -/
def addSourceFilePlugin (o : Objects) (p : String) (opt : PbxFileOptions)
    (uFileRef ug u1 u2 uBuild : String) :
    Except String (Option (PbxFile × Objects)) :=
  match addPluginFile o p opt uFileRef ug u1 u2 with
  | .error e => .error e
  | .ok none => .ok none   -- `if (!file) return false`
  | .ok (some (f, o1)) =>
    let f := { f with target := (if opt.hasTarget then opt.target else none),
                      uuid := some uBuild }
    let o2 := addToPbxBuildFileSection o1 f
    match addToPbxSourcesBuildPhase o2 f with
    | .error e => .error e
    | .ok o3 => .ok (some (f, o3))

/-- The matching test of `removeFromPbxFileReferenceSection` for one
section entry, against the freshly built reference object's `name` and
`path` (a string entry has `name === path === undefined`, so only its
quoted-`undefined` coercion can match). -/
def frMatch (e : SEnt FileRefRecord) (rn rp : String) : Bool :=
  match e with
  | .recd r =>
    (r.name == some rn) || (("\"" ++ jsShowO r.name ++ "\"") == rn) ||
    (r.path == some rp) || (("\"" ++ jsShowO r.path ++ "\"") == rp)
  | .cmt _ =>
    (("\"undefined\"" : String) == rn) || (("\"undefined\"" : String) == rp)

/-- `pbxProject.prototype.removeFromPbxFileReferenceSection`: delete the
first entry matching the descriptor's quoted name or path (recording its
key into `fileRef`/`uuid`), then delete the `<fileRef>_comment` entry if
present. -/
def removeFromPbxFileReferenceSection (o : Objects) (f : PbxFile) :
    Except String (Objects × PbxFile) :=
  match pbxFileReferenceObj f with
  | .error e => .error e
  | .ok refObj =>
    let rn := jsShowO refObj.name
    let rp := jsShowO refObj.path
    match o.pbxFileReference.find? fun q => frMatch q.2 rn rp with
    | some q =>
      let f2 := { f with fileRef := some q.1, uuid := some q.1 }
      let sec := jsDelete o.pbxFileReference q.1
      let ck := jsShowO f2.fileRef ++ "_comment"
      let sec := if (jsGet sec ck).isSome then jsDelete sec ck else sec
      .ok ({ o with pbxFileReference := sec }, f2)
    | none =>
      let ck := jsShowO f.fileRef ++ "_comment"
      let sec := if (jsGet o.pbxFileReference ck).isSome
        then jsDelete o.pbxFileReference ck else o.pbxFileReference
      .ok ({ o with pbxFileReference := sec }, f)

/-- Splice out the first list element satisfying the predicate (the
`splice(i, 1); break` pattern). -/
def removeFirst {α : Type} (p : α → Bool) : List α → List α
  | [] => []
  | x :: xs => if p x then xs else x :: removeFirst p xs

/-- `pbxProject.prototype.removeFromPluginsPbxGroup`: splice the first
child whose `(value, comment)` pair matches the descriptor's
`pbxGroupChild`.  A missing (or falsy) Plugins group returns `null`; a
string record, or a group without children, iterates nothing. -/
def removeFromPluginsPbxGroup (o : Objects) (f : PbxFile) : Objects :=
  match pbxGroupByNameKey o "Plugins" with
  | none => o
  | some (_, .cmt _) => o
  | some (k, .recd g) =>
    match g.children with
    | none => o
    | some ch =>
      let ch2 := removeFirst
        (fun child => jsEqOO (pbxGroupChild f).value child.value &&
          jsEqOO (pbxGroupChild f).comment child.comment) ch
      { o with pbxGroup := jsSet o.pbxGroup k (.recd { g with children := some ch2 }) }

/-- `pbxProject.prototype.removePluginFile`. -/
def removePluginFile (o : Objects) (p : String) (opt : PbxFileOptions) :
    Except String (Objects × PbxFile) :=
  let f := mkPbxFile p opt
  match correctForPluginsPath f o with
  | .error e => .error e
  | .ok f1 =>
    match removeFromPbxFileReferenceSection o f1 with
    | .error e => .error e
    | .ok (o1, f2) => .ok (removeFromPluginsPbxGroup o1 f2, f2)

/-- Does a build-file entry match `file.basename` by its
`fileRef_comment`?  (Comment-shadow strings have no `fileRef_comment`
property, so they never match.) -/
def bfMatch (e : SEnt BuildFileRecord) (basename : String) : Bool :=
  match e with
  | .recd r => r.fileRefComment == some basename
  | .cmt _ => false

/-- The `for … in` loop of `removeFromPbxBuildFileSection` with its
mid-iteration deletes: a matching record deletes itself and its
`<uuid>_comment` entry — from the already-visited prefix and from the
not-yet-visited suffix (a key deleted before being visited is never
visited). -/
def rmBFGo (basename : String) :
    List (String × SEnt BuildFileRecord) →
    List (String × SEnt BuildFileRecord) →
    List (String × SEnt BuildFileRecord)
  | acc, [] => acc
  | acc, (k, e) :: rest =>
    if bfMatch e basename then
      rmBFGo basename
        (acc.filter fun q => q.1 != k ++ "_comment")
        (rest.filter fun q => q.1 != k ++ "_comment")
    else rmBFGo basename (acc ++ [(k, e)]) rest
termination_by acc l => l.length
decreasing_by
  all_goals simp_wf
  have := List.length_filter_le (fun q => q.1 != k ++ "_comment") rest
  omega

/-- `pbxProject.prototype.removeFromPbxBuildFileSection`: delete every
build-file record whose `fileRef_comment` equals the file's basename,
together with its comment shadow. -/
def removeFromPbxBuildFileSection (o : Objects) (f : PbxFile) : Objects :=
  { o with pbxBuildFile := rmBFGo f.basename [] o.pbxBuildFile }

/-- `pbxProject.prototype.removeFromPbxSourcesBuildPhase`: splice the first
files entry whose comment equals `longComment(file)`.  A missing phase
makes the JS read `.files` of `null`; a string phase iterates nothing. -/
def removeFromPbxSourcesBuildPhase (o : Objects) (f : PbxFile) :
    Except String Objects :=
  match buildPhaseObjSources o "Sources" f.target with
  | .error e => .error e
  | .ok none => .error "TypeError: Cannot read properties of null (reading 'files')"
  | .ok (some (_, .cmt _)) => .ok o
  | .ok (some (k, .recd ph)) =>
    let fl := removeFirst (fun c => jsEqOS c.comment (longComment f)) ph.files
    let p2 : SEnt PhaseRecord := .recd { ph with files := fl }
    .ok { o with pbxSourcesBuildPhase := jsSet o.pbxSourcesBuildPhase k p2 }

/-- `pbxProject.prototype.removeSourceFile` without a group argument (the
Cordova-plugin path). -/
def removeSourceFilePlugin (o : Objects) (p : String) (opt : PbxFileOptions) :
    Except String (Objects × PbxFile) :=
  match removePluginFile o p opt with
  | .error e => .error e
  | .ok (o1, f0) =>
    let f := { f0 with target := if opt.hasTarget then opt.target else none }
    let o2 := removeFromPbxBuildFileSection o1 f
    match removeFromPbxSourcesBuildPhase o2 f with
    | .error e => .error e
    | .ok o3 => .ok (o3, f)

/-- `pbxProject.prototype.pbxItemByComment` instantiated at the
`PBXNativeTarget` section (the instance `pbxTargetByName` uses): find the
first comment entry equal to the name and return the entry at the stripped
key. -/
def pbxTargetByName (o : Objects) (name : String) :
    Option (SEnt TargetRecord) :=
  (o.pbxNativeTarget.find? fun p => isCommentKey p.1 && sentEqStr p.2 name).bind
    fun p => jsGet o.pbxNativeTarget (stripCommentSuffix p.1)

/-- The target-scoping phase of `updateBuildProperty`/`getBuildProperty`:
resolve the target by name, take its `buildConfigurationList` reference,
and collect the `value`s of the matching configuration list's
`buildConfigurations`.  A falsy target name collects nothing; reading
`buildConfigurations` of a comment string throws. -/
def validConfigsFor (o : Objects) (targetName : Option String) :
    Except String (List (Option String)) :=
  if h : optTruthyS targetName = true then
    let tn := targetName.get (by cases targetName <;> simp [optTruthyS] at h ⊢)
    let targetBuildConfigs : Option String :=
      match pbxTargetByName o tn with
      | some (.recd t) => t.buildConfigurationList
      | _ => none
    match targetBuildConfigs with
    | none => .ok []
    | some l1 =>
      match o.xcConfigurationList.find? fun p => !isCommentKey p.1 && p.1 == l1 with
      | none => .ok []
      | some (_, .recd cl) => .ok (cl.buildConfigurations.map (·.value))
      | some (_, .cmt _) => .error "TypeError: undefined is not iterable"
  else .ok []

/-- The update loop of `updateBuildProperty` over the
`XCBuildConfiguration` section.  Comment keys are skipped; with a target
name, keys outside `validConfigs` are skipped; a configuration whose
`name` strictly equals the (truthy) build name — or every configuration
when no build name is given — gets `buildSettings[prop] = value`.  (A
comment string at a non-comment key is never written: with a truthy build
name its `name` is `undefined`, and a sloppy-mode property write on a
string primitive is a silent no-op.) -/
def updateConfigEntry (prop value : String)
    (build : Option String) (targetName : Option String)
    (validConfigs : List (Option String)) (p : String × SEnt ConfigRecord) :
    String × SEnt ConfigRecord :=
  if isCommentKey p.1 then p
  else if optTruthyS targetName ∧ ¬ validConfigs.contains (some p.1) then p
  else match p.2 with
    | .recd config =>
      if (optTruthyS build ∧ config.name == build) ∨ ¬ optTruthyS build then
        (p.1, .recd { config with
          buildSettings := jsSet config.buildSettings prop value })
      else p
    | .cmt _ => p

def updateConfigs (sec : Sect ConfigRecord) (prop value : String)
    (build : Option String) (targetName : Option String)
    (validConfigs : List (Option String)) : Sect ConfigRecord :=
  sec.map (updateConfigEntry prop value build targetName validConfigs)

/-- `pbxProject.prototype.updateBuildProperty`. -/
def updateBuildProperty (o : Objects) (prop value : String)
    (build : Option String) (targetName : Option String) :
    Except String Objects :=
  match validConfigsFor o targetName with
  | .error e => .error e
  | .ok validConfigs =>
    .ok { o with xcBuildConfiguration :=
      updateConfigs o.xcBuildConfiguration prop value build targetName validConfigs }

/-- The per-dependency record creation of `addTargetDependency` (the body
of its second loop), at dependency index `i` of the supply. -/
def addOneDependency (h : ProjectHash) (target dep : String) (i : Nat)
    (supply : Nat → String) : Except String ProjectHash :=
  let nt := h.objects.pbxNativeTarget
  let targetDependencyUuid := supply (2 * i)
  let itemProxyUuid := supply (2 * i + 1)
  let remoteInfo : Option String :=
    match jsGet nt dep with
    | some (.recd t) => t.name
    | _ => none
  let itemProxy : ProxyRecord :=
    { containerPortal := h.rootObject
      containerPortalComment := h.rootObjectComment
      proxyType := 1
      remoteGlobalIDString := some dep
      remoteInfo := remoteInfo }
  let targetComment : Option String :=
    match jsGet nt (dep ++ "_comment") with
    | some (.cmt c) => some c
    | _ => none
  let targetDependency : DepRecord :=
    { target := some dep
      targetComment := targetComment
      targetProxy := some itemProxyUuid
      targetProxyComment := some "PBXContainerItemProxy" }
  let proxySec := jsSet (jsSet h.objects.pbxContainerItemProxy itemProxyUuid
    (.recd itemProxy)) (itemProxyUuid ++ "_comment") (.cmt "PBXContainerItemProxy")
  let depSec := jsSet (jsSet h.objects.pbxTargetDependency targetDependencyUuid
    (.recd targetDependency)) (targetDependencyUuid ++ "_comment")
    (.cmt "PBXTargetDependency")
  match jsGet nt target with
  | some (.recd t) =>
    let t2 : SEnt TargetRecord := .recd { t with dependencies := t.dependencies ++
      [{ value := some targetDependencyUuid, comment := some "PBXTargetDependency" }] }
    .ok { h with objects := { h.objects with
      pbxContainerItemProxy := proxySec
      pbxTargetDependency := depSec
      pbxNativeTarget := jsSet nt target t2 } }
  | _ => .error "TypeError: Cannot read properties of undefined (reading 'push')"

/-- The creation loop of `addTargetDependency`. -/
def addDependencies (h : ProjectHash) (target : String) :
    List String → Nat → (Nat → String) → Except String ProjectHash
  | [], _, _ => .ok h
  | dep :: rest, i, supply =>
    match addOneDependency h target dep i supply with
    | .error e => .error e
    | .ok h2 => addDependencies h2 target rest (i + 1) supply

/-- `pbxProject.prototype.addTargetDependency`: a falsy target returns
`undefined`; a target or dependency identifier with no entry in the
native-target bucket throws `Invalid target: <id>` before anything is
created; otherwise one container-item-proxy and one target-dependency
record are created per dependency and the dependency reference is pushed
onto the target's list. -/
def addTargetDependency (h : ProjectHash) (target : Option String)
    (dependencyTargets : List String) (supply : Nat → String) :
    Except String (Option (String × ProjectHash)) :=
  if ht : optTruthyS target = true then
    let t := target.get (by cases target <;> simp [optTruthyS] at ht ⊢)
    let nt := h.objects.pbxNativeTarget
    if (jsGet nt t).isNone then .error ("Invalid target: " ++ t)
    else
      match dependencyTargets.find? fun d => (jsGet nt d).isNone with
      | some d => .error ("Invalid target: " ++ d)
      | none =>
        match addDependencies h t dependencyTargets 0 supply with
        | .error e => .error e
        | .ok h2 => .ok (some (t, h2))
  else .ok none

/-! ### Association-list lemmas for the store operations -/

/-- A pointwise-equal predicate gives the same `find?` result. -/
theorem find?_congr {α : Type} {p q : α → Bool} :
    ∀ {l : List α}, (∀ a ∈ l, p a = q a) → l.find? p = l.find? q := by
  intro l
  induction l with
  | nil => intro _; rfl
  | cons a rest ih =>
    intro h
    by_cases hp : p a = true
    · rw [List.find?_cons_of_pos _ hp,
        List.find?_cons_of_pos _ (by rw [← h a (by simp)]; exact hp)]
    · rw [List.find?_cons_of_neg _ hp,
        List.find?_cons_of_neg _ (by rw [← h a (by simp)]; exact hp),
        ih fun x hx => h x (by simp [hx])]

/-- `find?` over a key-preserving entry transformation. -/
theorem find?_map_preserving {α : Type} {h : α → α} {pred : α → Bool} :
    ∀ {l : List α}, (∀ a ∈ l, pred (h a) = pred a) →
    (l.map h).find? pred = (l.find? pred).map h := by
  intro l
  induction l with
  | nil => intro _; rfl
  | cons a rest ih =>
    intro hp
    rw [List.map_cons]
    by_cases hpa : pred a = true
    · rw [List.find?_cons_of_pos _ (by rw [hp a (by simp)]; exact hpa),
        List.find?_cons_of_pos _ hpa]
      rfl
    · rw [List.find?_cons_of_neg _ (by rw [hp a (by simp)]; exact hpa),
        List.find?_cons_of_neg _ hpa, ih fun x hx => hp x (by simp [hx])]

theorem any_key_false_of_not_mem {α : Type} {m : List (String × α)}
    {k : String} (h : k ∉ m.map Prod.fst) :
    m.any (fun p => p.1 == k) = false := by
  rw [Bool.eq_false_iff]
  intro hc
  obtain ⟨p, hp, he⟩ := List.any_eq_true.1 hc
  exact h (by rw [← beq_iff_eq.1 he]; exact List.mem_map.2 ⟨p, hp, rfl⟩)

/-- Writing a fresh key appends. -/
theorem jsSet_fresh {α : Type} {m : List (String × α)} {k : String} (v : α)
    (h : k ∉ m.map Prod.fst) : jsSet m k v = m ++ [(k, v)] := by
  rw [jsSet, any_key_false_of_not_mem h]
  simp

theorem jsGet_append {α : Type} (m₁ m₂ : List (String × α)) (k : String) :
    jsGet (m₁ ++ m₂) k = (jsGet m₁ k).or (jsGet m₂ k) := by
  rw [jsGet, jsGet, jsGet, List.find?_append]
  rcases hf : m₁.find? (fun p => p.1 == k) with _ | p <;> rw [hf] <;> simp

theorem jsGet_eq_none_of_not_mem {α : Type} {m : List (String × α)}
    {k : String} (h : k ∉ m.map Prod.fst) : jsGet m k = none := by
  rw [jsGet, List.find?_eq_none.2]
  · rfl
  · intro p hp hc
    have hk : p.1 = k := by simpa using hc
    exact h (hk ▸ List.mem_map.2 ⟨p, hp, rfl⟩)

theorem jsGet_mem {α : Type} {m : List (String × α)} {k : String} {v : α}
    (h : jsGet m k = some v) : (k, v) ∈ m := by
  rw [jsGet, Option.map_eq_some'] at h
  obtain ⟨p, hfind, hv⟩ := h
  have hp := List.find?_some hfind
  have hmem := List.mem_of_find?_eq_some hfind
  have hpe : p = (k, v) := by
    rcases p with ⟨a, b⟩
    have ha : a = k := by simpa using hp
    have hb : b = v := hv
    rw [ha, hb]
  rwa [hpe] at hmem

/-- Reading back a key just written returns the written value. -/
theorem jsGet_jsSet_self {α : Type} (m : List (String × α)) (k : String)
    (v : α) : jsGet (jsSet m k v) k = some v := by
  rw [jsSet]
  by_cases hany : m.any (fun p => p.1 == k) = true
  · rw [if_pos hany, jsGet,
      find?_map_preserving (h := fun p => if p.1 == k then (k, v) else p)
        (fun a _ => by by_cases ha : a.1 == k <;> simp [ha])]
    rcases hf : m.find? (fun p => p.1 == k) with _ | p0
    · obtain ⟨w, hw, hwp⟩ := List.any_eq_true.1 hany
      exact absurd hwp (by simpa using List.find?_eq_none.1 hf w hw)
    · have hp0 := List.find?_some hf
      rw [hf]
      simp [beq_iff_eq.1 hp0]
  · rw [if_neg hany, jsGet_append, jsGet, List.find?_eq_none.2]
    · simp [jsGet]
    · intro p hp hc
      exact hany (List.any_eq_true.2 ⟨p, hp, by simpa using hc⟩)

/-- Writing key `k` leaves every other key unchanged. -/
theorem jsGet_jsSet_other {α : Type} (m : List (String × α)) {k k' : String}
    (v : α) (hne : k' ≠ k) : jsGet (jsSet m k v) k' = jsGet m k' := by
  rw [jsSet]
  by_cases hany : m.any (fun p => p.1 == k) = true
  · rw [if_pos hany, jsGet,
      find?_map_preserving (h := fun p => if p.1 == k then (k, v) else p)
        (fun a _ => by
          by_cases ha : a.1 == k
          · simp [ha, beq_iff_eq, Ne.symm hne, beq_iff_eq.1 ha]
          · simp [ha]), jsGet]
    rcases hf : m.find? (fun p => p.1 == k') with _ | p0
    · rw [hf]
      rfl
    · have hp0 := List.find?_some hf
      have hp0k : p0.1 ≠ k := by rw [beq_iff_eq.1 hp0]; exact hne
      rw [hf]
      simp [hp0k]
  · rw [if_neg hany, jsGet_append]
    have hz : jsGet [(k, v)] k' = none := by
      simp [jsGet, beq_eq_false_iff_ne.2 (Ne.symm hne)]
    rw [hz, Option.or_none]
/-- C5: for every call to `addTargetDependency(target, dependencyTargets)`
where the (nonempty, hence truthy) `target` or some element of
`dependencyTargets` is an identifier absent from the native-target bucket,
the call throws `Invalid target: <id>` naming an absent identifier, and —
since the error is raised before the creation loop runs — no
container-item-proxy record, target-dependency record, or dependency-list
entry is created (the erroring call produces no updated hash at all).
The nonemptiness hypothesis is needed because the source first checks
`if (!target) return undefined`, so a falsy target is reported by the
`undefined` sentinel rather than an exception; project identifiers are
24-character uppercase-hex strings and never empty. -/
theorem c5_invalid_target_dependency_error (h : ProjectHash) (t : String)
    (deps : List String) (supply : Nat → String) (ht : t ≠ "")
    (habs : (jsGet h.objects.pbxNativeTarget t).isNone = true ∨
      ∃ d ∈ deps, (jsGet h.objects.pbxNativeTarget d).isNone = true) :
    ∃ bad, (bad = t ∨ bad ∈ deps) ∧
      (jsGet h.objects.pbxNativeTarget bad).isNone = true ∧
      addTargetDependency h (some t) deps supply =
        Except.error ("Invalid target: " ++ bad) := by
  have htruthy : optTruthyS (some t) = true := by simp [optTruthyS, ht]
  rw [addTargetDependency, dif_pos htruthy]
  simp only [Option.get_some]
  by_cases habst : (jsGet h.objects.pbxNativeTarget t).isNone = true
  · exact ⟨t, Or.inl rfl, habst, by rw [if_pos habst]⟩
  · rcases habs with habs | ⟨d, hd, hdabs⟩
    · exact absurd habs habst
    · rw [if_neg habst]
      rcases hf : deps.find? (fun d => (jsGet h.objects.pbxNativeTarget d).isNone)
        with _ | d0
      · exact absurd hdabs (by simpa using List.find?_eq_none.1 hf d hd)
      · exact ⟨d0, Or.inr (List.mem_of_find?_eq_some hf),
          by simpa using List.find?_some hf, rfl⟩

theorem c5_witness : ∃ bad, (bad = "T1" ∨ bad ∈ (["D1"] : List String)) ∧
    (jsGet ({} : ProjectHash).objects.pbxNativeTarget bad).isNone = true ∧
    addTargetDependency {} (some "T1") ["D1"] (fun _ => "U") =
      Except.error ("Invalid target: " ++ bad) :=
  c5_invalid_target_dependency_error {} "T1" ["D1"] (fun _ => "U")
    (by decide) (Or.inl rfl)
/-- A truthy `explicitFileType` option makes the constructor delete the
descriptor's `path`. -/
theorem mkPbxFile_path_explicit (p : String) (opt : PbxFileOptions)
    (hexp : optTruthyS opt.explicitFileType = true) :
    (mkPbxFile p opt).path = none := by
  simp [mkPbxFile, hexp]

/-- `correctForPath` on a pathless descriptor either throws the
`.replace`-of-`undefined` TypeError (when the named group exists with a
truthy path) or returns the descriptor unchanged. -/
theorem correctForPath_path_none (f : PbxFile) (o : Objects) (grp : String)
    (hp : f.path = none) :
    correctForPath f o grp =
      Except.error "TypeError: Cannot read properties of undefined (reading 'replace')" ∨
    correctForPath f o grp = Except.ok f := by
  rcases hg : pbxGroupByNameKey o grp with _ | ⟨k, g | c⟩
  · rw [correctForPath]
    simp only [hg]
    exact Or.inr trivial
  · rw [correctForPath]
    simp only [hg]
    by_cases hgp : optTruthyS g.path = true
    · rw [if_pos hgp, hp]
      exact Or.inl rfl
    · rw [if_neg hgp]
      exact Or.inr rfl
  · rw [correctForPath]
    simp only [hg]
    exact Or.inr trivial

/-- Inserting a pathless descriptor into the file-reference section throws
(the record builder reads `path.replace`). -/
theorem addToPbxFileReferenceSection_path_none (o : Objects) (f : PbxFile)
    (hp : f.path = none) :
    addToPbxFileReferenceSection o f =
      Except.error "TypeError: Cannot read properties of undefined (reading 'replace')" := by
  rw [addToPbxFileReferenceSection, pbxFileReferenceObj, hp]

/-- C10 (corrected): with a truthy `explicitFileType` option the descriptor
`addPluginFile` builds has no `path`, so the duplicate-tracking `hasFile`
check is indeed skipped and the `null` sentinel is never returned — but the
claim's conclusion that two calls insert two file-reference records for the
same path is wrong: every such call throws
`TypeError: Cannot read properties of undefined (reading 'replace')`
(from `pbxFileReferenceObj`, or already from `correctForPluginsPath` when a
Plugins group with a truthy path exists), so no file-reference record is
ever inserted. -/
theorem c10_explicit_type_always_throws (o : Objects) (p : String)
    (opt : PbxFileOptions) (uFileRef ug u1 u2 : String)
    (hexp : optTruthyS opt.explicitFileType = true) :
    addPluginFile o p opt uFileRef ug u1 u2 =
      Except.error "TypeError: Cannot read properties of undefined (reading 'replace')" := by
  have hp0 : ({ (mkPbxFile p opt) with plugin := true } : PbxFile).path = none :=
    mkPbxFile_path_explicit p opt hexp
  simp only [addPluginFile]
  generalize hf : ({ (mkPbxFile p opt) with plugin := true } : PbxFile) = f0 at hp0 ⊢
  rcases correctForPath_path_none f0 o "Plugins" hp0 with herr | hok
  · simp only [correctForPluginsPath, herr]
  · simp only [correctForPluginsPath, hok]
    rw [hp0]
    have hcond : ¬((none : Option String).isSome = true ∧
        hasFileTruthy o none = true) := by simp
    rw [if_neg hcond]
    simp only [addToPbxFileReferenceSection, pbxFileReferenceObj]

theorem c10_witness :
    addPluginFile {} "MyLib" { explicitFileType := some "archive.ar" }
      "F1" "G1" "A1" "B1" =
      Except.error "TypeError: Cannot read properties of undefined (reading 'replace')" :=
  c10_explicit_type_always_throws {} "MyLib"
    { explicitFileType := some "archive.ar" } "F1" "G1" "A1" "B1" (by decide)

/-- C10 counterexample to the original claim: the concrete explicit-type
call `addPluginFile("MyLib", cat explicitFileType: "archive.ar" end)` on the
empty graph throws a TypeError instead of inserting a file-reference
record, so a second call cannot produce two records. -/
theorem c10_counterexample :
    addPluginFile {} "MyLib.a" { explicitFileType := some "archive.ar" }
      "F2" "G2" "A2" "B2" =
      Except.error "TypeError: Cannot read properties of undefined (reading 'replace')" := rfl
/-- `replace(/\\\\/g, ...)` is idempotent: a path with its backslashes
already replaced has none left. -/
theorem replBackslash_idem (s : String) :
    replBackslash (replBackslash s) = replBackslash s := by
  simp only [replBackslash, List.map_map]
  have hf : ((fun c => if c = '\\' then '/' else c) ∘
      fun c => if c = '\\' then '/' else c) =
      (fun c => if c = '\\' then '/' else c) := by
    funext c
    by_cases h : c = '\\' <;> simp [h, Function.comp]
  rw [hf]

/-- A key differs from its comment shadow. -/
theorem self_ne_append_comment (s : String) : s ≠ s ++ "_comment" := by
  intro h
  have hl := congrArg String.length h
  rw [String.length_append] at hl
  have h8 : "_comment".length = 8 := rfl
  omega

/-- Without a truthy `explicitFileType` option the constructor keeps the
descriptor's `path`: the default path with backslashes replaced. -/
theorem mkPbxFile_path_nonexplicit (p : String) (opt : PbxFileOptions)
    (hexp : optTruthyS opt.explicitFileType = false) :
    (mkPbxFile p opt).path = some (replBackslash (defaultPath
      (if optTruthyS opt.lastKnownFileType = true then opt.lastKnownFileType.get!
       else detectType p) opt.customFramework p)) := by
  simp [mkPbxFile, hexp]

/-- `addToPbxGroupType` never touches the file-reference bucket. -/
theorem addToPbxGroupType_pbxFileReference (o : Objects) (f : PbxFile)
    (groupKey : String) (variant : Bool) :
    (addToPbxGroupType o f groupKey variant).pbxFileReference =
      o.pbxFileReference := by
  rw [addToPbxGroupType]
  split
  · split
    · split <;> rfl
    · rfl
  · rfl
/-- A non-comment file-reference record whose `path` is the double-quoted
form of the probed path makes `hasFile` truthy. -/
theorem hasFileTruthy_of_record (o : Objects) (u : String) (r : FileRefRecord)
    (pq : String)
    (hmem : (u, SEnt.recd r) ∈ o.pbxFileReference)
    (hu : isCommentKey u = false)
    (hpath : r.path = some ("\"" ++ pq ++ "\"")) :
    hasFileTruthy o (some pq) = true := by
  have hmem2 : (u, SEnt.recd r) ∈ nonComments o.pbxFileReference := by
    rw [nonComments]
    exact List.mem_filter.2 ⟨hmem, by simp [hu]⟩
  rw [hasFileTruthy]
  rcases hh : hasFileEnt o (some pq) with _ | e
  · rw [hasFileEnt] at hh
    have h1 : (if jsEqOO r.path (some pq) ||
        r.path == some ("\"" ++ jsShowO (some pq) ++ "\"") then
        some (SEnt.recd r) else none) = none :=
      List.findSome?_eq_none_iff.1 hh _ hmem2
    have hcond : (jsEqOO r.path (some pq) ||
        r.path == some ("\"" ++ jsShowO (some pq) ++ "\"")) = true := by
      rw [hpath]
      simp [jsShowO]
    rw [if_pos hcond] at h1
    exact Option.noConfusion h1
  · rw [hasFileEnt] at hh
    obtain ⟨x, hx, hfx⟩ := List.exists_of_findSome?_eq_some hh
    rcases x with ⟨k, xr | xc⟩
    · have hfx2 : (if jsEqOO xr.path (some pq) ||
          xr.path == some ("\"" ++ jsShowO (some pq) ++ "\"") then
          some (SEnt.recd xr) else none) = some e := hfx
      by_cases hc : (jsEqOO xr.path (some pq) ||
          xr.path == some ("\"" ++ jsShowO (some pq) ++ "\"")) = true
      · rw [if_pos hc] at hfx2
        rw [← Option.some.inj hfx2]
        rfl
      · rw [if_neg hc] at hfx2
        exact Option.noConfusion hfx2
    · have hfx2 : (if jsEqOO none (some pq) = true then
          some (SEnt.cmt xc) else none) = some e := hfx
      rw [if_neg (by simp [jsEqOO])] at hfx2
      exact Option.noConfusion hfx2

/-- Successful insertion into the file-reference section: the new record —
with the quoted, backslash-normalised path — is retrievable at the fresh
key afterwards, and no other bucket changes. -/
theorem addToPbxFileReferenceSection_inserts (o : Objects) (f : PbxFile)
    (P u : String) (hp : f.path = some P) (hfr : f.fileRef = some u) :
    ∃ o1, addToPbxFileReferenceSection o f = Except.ok o1 ∧
      jsGet o1.pbxFileReference u =
        some (SEnt.recd
          { name := some ("\"" ++ f.basename ++ "\"")
            path := some ("\"" ++ replBackslash P ++ "\"")
            sourceTree := some f.sourceTree
            fileEncoding := f.fileEncoding
            lastKnownFileType := f.lastKnownFileType
            explicitFileType := f.explicitFileType
            includeInIndex := some f.includeInIndex }) ∧
      o1.pbxBuildFile = o.pbxBuildFile ∧ o1.pbxGroup = o.pbxGroup ∧
      o1.pbxVariantGroup = o.pbxVariantGroup ∧
      o1.pbxSourcesBuildPhase = o.pbxSourcesBuildPhase ∧
      o1.pbxNativeTarget = o.pbxNativeTarget := by
  rw [addToPbxFileReferenceSection, pbxFileReferenceObj, hp, hfr]
  exact ⟨_, rfl,
    (jsGet_jsSet_other _ _ (self_ne_append_comment u)).trans
      (jsGet_jsSet_self _ _ _),
    rfl, rfl, rfl, rfl, rfl⟩
/-- C2 (corrected): for options without a truthy `explicitFileType` (so the
descriptor keeps its `path`), adding the same path twice via `addFile`
returns the falsy `null` sentinel on the second call rather than raising:
if the first call already found the path it returns the sentinel and the
second call does too; if the first call inserted the file, the second call
— run on the graph the first call produced — returns the sentinel, and
since the sentinel return happens before any mutation, the second call
leaves every bucket unchanged (in this pure model an `.ok none` result
carries no new graph at all).  The explicit-file-type restriction is
needed: such descriptors lose their `path` and `addFile` then throws a
TypeError instead of returning the sentinel (see the counterexample). -/
theorem c2_duplicate_add_sentinel (o : Objects) (p group : String)
    (opt : PbxFileOptions) (u1 u2 : String)
    (hexp : optTruthyS opt.explicitFileType = false)
    (hu1 : isCommentKey u1 = false) :
    (addFile o p group opt u1 = Except.ok none →
      addFile o p group opt u2 = Except.ok none) ∧
    ∀ f1 o2, addFile o p group opt u1 = Except.ok (some (f1, o2)) →
      addFile o2 p group opt u2 = Except.ok none := by
  have hpath := mkPbxFile_path_nonexplicit p opt hexp
  have hidem := replBackslash_idem (defaultPath
    (if optTruthyS opt.lastKnownFileType = true then opt.lastKnownFileType.get!
     else detectType p) opt.customFramework p)
  generalize hP : replBackslash (defaultPath
    (if optTruthyS opt.lastKnownFileType = true then opt.lastKnownFileType.get!
     else detectType p) opt.customFramework p) = P at hpath hidem
  constructor
  · intro h
    by_cases hhas : hasFileTruthy o (mkPbxFile p opt).path = true
    · simp only [addFile]
      rw [if_pos hhas]
    · exfalso
      obtain ⟨o1, hins, -, -, -, -, -, -⟩ :=
        addToPbxFileReferenceSection_inserts o
          ({ (mkPbxFile p opt) with fileRef := some u1 }) P u1 hpath rfl
      simp only [addFile] at h
      rw [if_neg hhas] at h
      simp only [hins] at h
      exact Option.noConfusion (Except.ok.inj h)
  · intro f1 o2 h
    by_cases hhas : hasFileTruthy o (mkPbxFile p opt).path = true
    · simp only [addFile] at h
      rw [if_pos hhas] at h
      exact absurd (Except.ok.inj h) (fun hc => Option.noConfusion hc)
    · obtain ⟨o1, hins, hget, -, -, -, -, -⟩ :=
        addToPbxFileReferenceSection_inserts o
          ({ (mkPbxFile p opt) with fileRef := some u1 }) P u1 hpath rfl
      simp only [addFile] at h
      rw [if_neg hhas] at h
      simp only [hins] at h
      have h2 := Option.some.inj (Except.ok.inj h)
      have ho2 : o2 = (if entTruthy (getPBXGroupByKey o1 group) = true then
          addToPbxGroupType o1
            ({ (mkPbxFile p opt) with fileRef := some u1 }) group false
        else if entTruthy (getPBXVariantGroupByKey o1 group) = true then
          addToPbxGroupType o1
            ({ (mkPbxFile p opt) with fileRef := some u1 }) group true
        else o1) := (congrArg Prod.snd h2).symm
      have hfrb : o2.pbxFileReference = o1.pbxFileReference := by
        rw [ho2]
        by_cases h3 : entTruthy (getPBXGroupByKey o1 group) = true
        · rw [if_pos h3, addToPbxGroupType_pbxFileReference]
        · rw [if_neg h3]
          by_cases h4 : entTruthy (getPBXVariantGroupByKey o1 group) = true
          · rw [if_pos h4, addToPbxGroupType_pbxFileReference]
          · rw [if_neg h4]
      have htr : hasFileTruthy o2 (some P) = true := by
        refine hasFileTruthy_of_record o2 u1 _ P
          (hfrb.symm ▸ jsGet_mem hget) hu1 ?_
        simp only [hidem]
      have htr2 : hasFileTruthy o2 (mkPbxFile p opt).path = true := by
        rw [hpath]
        exact htr
      simp only [addFile]
      rw [if_pos htr2]
theorem c2_witness :
    (addFile {} "a.m" "Classes" {} "U1A" = Except.ok none →
      addFile {} "a.m" "Classes" {} "U2A" = Except.ok none) ∧
    ∀ f1 o2, addFile {} "a.m" "Classes" {} "U1A" = Except.ok (some (f1, o2)) →
      addFile o2 "a.m" "Classes" {} "U2A" = Except.ok none :=
  c2_duplicate_add_sentinel {} "a.m" "Classes" {} "U1A" "U2A" rfl (by decide)

/-- C2 counterexample to the original claim: with an `explicitFileType`
option the constructed descriptor has no `path`, and `addFile` throws a
TypeError while building the file-reference record.  The first call changes
nothing, so the identical second call raises the same TypeError — it does
not return a falsy sentinel. -/
theorem c2_counterexample :
    addFile {} "MyLib" "Classes" { explicitFileType := some "archive.ar" }
      "U1B" =
      Except.error "TypeError: Cannot read properties of undefined (reading 'replace')" := rfl
/-- A comment-shadow key always tests as a comment key. -/
theorem isCommentKey_append_comment (s : String) :
    isCommentKey (s ++ "_comment") = true := by
  rw [isCommentKey, String.data_append, List.isSuffixOf]
  simp [List.isPrefixOf_iff_prefix]

/-- The loop of `removeFromPbxBuildFileSection` as one filter: provided no
matching record sits at a comment key (true of every graph the library
builds: records live at 24-character identifier keys), the loop keeps
exactly the entries that do not match the basename and are not the comment
shadow of a matching key — every match is deleted, not just the first. -/
theorem rmBFGo_spec (b : String) :
    ∀ (acc pending : List (String × SEnt BuildFileRecord)),
    (∀ q ∈ pending, bfMatch q.2 b = true → isCommentKey q.1 = false) →
    rmBFGo b acc pending =
      (acc ++ pending.filter fun q => !bfMatch q.2 b).filter
        fun q => !(pending.filter fun r => bfMatch r.2 b).any
          fun r => q.1 == r.1 ++ "_comment" := by
  intro acc pending
  induction acc, pending using rmBFGo.induct b with
  | case1 acc =>
    intro _
    simp [rmBFGo]
  | case2 acc k e rest hmatch ih =>
    intro hw
    have hw' : ∀ q ∈ rest.filter (fun q => q.1 != k ++ "_comment"),
        bfMatch q.2 b = true → isCommentKey q.1 = false :=
      fun q hq => hw q (List.mem_cons_of_mem _ (List.mem_of_mem_filter hq))
    have hkc : (rest.filter fun q => q.1 != k ++ "_comment").filter
        (fun r => bfMatch r.2 b) = rest.filter fun r => bfMatch r.2 b := by
      rw [List.filter_filter]
      refine List.filter_congr fun a ha => ?_
      rcases hm : bfMatch a.2 b with _ | _
      · simp
      · have hnc := hw a (List.mem_cons_of_mem _ ha) hm
        have : a.1 ≠ k ++ "_comment" := fun he =>
          by rw [he, isCommentKey_append_comment] at hnc; exact Bool.noConfusion hnc
        simp [this]
    rw [rmBFGo, if_pos hmatch, ih hw', hkc]
    simp only [List.filter_cons, hmatch, Bool.not_true, Bool.false_eq_true,
      if_false, if_true, List.any_cons, Bool.not_or, List.filter_append,
      List.filter_filter]
    refine congrArg₂ (· ++ ·) (List.filter_congr fun a _ => ?_)
      (List.filter_congr fun a _ => ?_) <;>
      cases hx : (a.1 == k ++ "_comment") <;>
      simp [bne, hx, Bool.and_comm]
  | case3 acc k e rest hmatch ih =>
    intro hw
    have hw' : ∀ q ∈ rest, bfMatch q.2 b = true → isCommentKey q.1 = false :=
      fun q hq => hw q (List.mem_cons_of_mem _ hq)
    have hm : bfMatch e b = false := by
      rcases hb : bfMatch e b with _ | _
      · rfl
      · exact absurd hb hmatch
    rw [rmBFGo, if_neg hmatch, ih hw']
    simp [List.filter_cons, hm]
/-- C9: `removeFromPbxBuildFileSection` matches build-file entries solely by
comparing the stored `fileRef_comment` with the file's basename (never the
full path — `bfMatch` reads no other field), deletes every matching entry
together with its `<uuid>_comment` shadow rather than stopping at the
first, and consequently when two tracked files in different directories
share a basename, removing either one deletes the build-file records of
both (third conjunct, instantiated with the two same-basename records).
The hypothesis — no matching record sits at a `*_comment` key — holds of
every graph the library builds, where records live at 24-character
identifier keys. -/
theorem c9_remove_build_file_by_basename (o : Objects) (f : PbxFile)
    (hw : ∀ q ∈ o.pbxBuildFile, bfMatch q.2 f.basename = true →
      isCommentKey q.1 = false) :
    (removeFromPbxBuildFileSection o f).pbxBuildFile =
      (o.pbxBuildFile.filter fun q => !bfMatch q.2 f.basename).filter
        (fun q => !(o.pbxBuildFile.filter fun r => bfMatch r.2 f.basename).any
          fun r => q.1 == r.1 ++ "_comment") ∧
    (∀ q ∈ (removeFromPbxBuildFileSection o f).pbxBuildFile,
      bfMatch q.2 f.basename = false) ∧
    ∀ u1 r1 u2 r2, (u1, SEnt.recd r1) ∈ o.pbxBuildFile →
      (u2, SEnt.recd r2) ∈ o.pbxBuildFile →
      r1.fileRefComment = some f.basename →
      r2.fileRefComment = some f.basename →
      (u1, SEnt.recd r1) ∉ (removeFromPbxBuildFileSection o f).pbxBuildFile ∧
      (u2, SEnt.recd r2) ∉ (removeFromPbxBuildFileSection o f).pbxBuildFile := by
  have h1 : (removeFromPbxBuildFileSection o f).pbxBuildFile =
      (o.pbxBuildFile.filter fun q => !bfMatch q.2 f.basename).filter
        (fun q => !(o.pbxBuildFile.filter fun r => bfMatch r.2 f.basename).any
          fun r => q.1 == r.1 ++ "_comment") :=
    rmBFGo_spec f.basename [] o.pbxBuildFile hw
  have h2 : ∀ q ∈ (removeFromPbxBuildFileSection o f).pbxBuildFile,
      bfMatch q.2 f.basename = false := by
    intro q hq
    rw [h1] at hq
    have hh := (List.mem_filter.1 (List.mem_filter.1 hq).1).2
    simpa using hh
  refine ⟨h1, h2, ?_⟩
  intro u1 r1 u2 r2 hm1 hm2 hc1 hc2
  constructor <;> intro hq
  · have := h2 _ hq
    simp [bfMatch, hc1] at this
  · have := h2 _ hq
    simp [bfMatch, hc2] at this

/-- C9 witness graph: two build-file records in different directories with
the same basename `foo.m`, their comment shadows, and an unrelated record. -/
def c9OW : Objects :=
  { pbxBuildFile :=
      [("AAAAAAAAAAAAAAAAAAAAAAA1",
        SEnt.recd { fileRef := some "R1", fileRefComment := some "foo.m" }),
       ("AAAAAAAAAAAAAAAAAAAAAAA1_comment", SEnt.cmt "foo.m in Sources"),
       ("AAAAAAAAAAAAAAAAAAAAAAA2",
        SEnt.recd { fileRef := some "R2", fileRefComment := some "foo.m" }),
       ("AAAAAAAAAAAAAAAAAAAAAAA2_comment", SEnt.cmt "foo.m in Sources"),
       ("AAAAAAAAAAAAAAAAAAAAAAA3",
        SEnt.recd { fileRef := some "R3", fileRefComment := some "bar.m" })] }

def c9FW : PbxFile := { basename := "foo.m" }

theorem c9_witness :
    (removeFromPbxBuildFileSection c9OW c9FW).pbxBuildFile =
      (c9OW.pbxBuildFile.filter fun q => !bfMatch q.2 c9FW.basename).filter
        (fun q => !(c9OW.pbxBuildFile.filter
            fun r => bfMatch r.2 c9FW.basename).any
          fun r => q.1 == r.1 ++ "_comment") ∧
    (∀ q ∈ (removeFromPbxBuildFileSection c9OW c9FW).pbxBuildFile,
      bfMatch q.2 c9FW.basename = false) ∧
    ∀ u1 r1 u2 r2, (u1, SEnt.recd r1) ∈ c9OW.pbxBuildFile →
      (u2, SEnt.recd r2) ∈ c9OW.pbxBuildFile →
      r1.fileRefComment = some c9FW.basename →
      r2.fileRefComment = some c9FW.basename →
      (u1, SEnt.recd r1) ∉ (removeFromPbxBuildFileSection c9OW c9FW).pbxBuildFile ∧
      (u2, SEnt.recd r2) ∉ (removeFromPbxBuildFileSection c9OW c9FW).pbxBuildFile :=
  c9_remove_build_file_by_basename c9OW c9FW (by decide)
theorem updateConfigEntry_fst (prop value : String)
    (build targetName : Option String) (vc : List (Option String))
    (p : String × SEnt ConfigRecord) :
    (updateConfigEntry prop value build targetName vc p).1 = p.1 := by
  rcases p with ⟨k, e⟩
  rw [updateConfigEntry]
  repeat' split
  all_goals rfl

/-- The config-update pass through `jsGet`: every key's entry is the
original entry transformed in place. -/
theorem updateConfigs_jsGet (sec : Sect ConfigRecord) (prop value : String)
    (build targetName : Option String) (vc : List (Option String))
    (k : String) :
    jsGet (updateConfigs sec prop value build targetName vc) k =
      (jsGet sec k).map fun e =>
        (updateConfigEntry prop value build targetName vc (k, e)).2 := by
  rw [updateConfigs, jsGet,
    find?_map_preserving (fun a _ => by
      rw [show ((updateConfigEntry prop value build targetName vc a).1 == k) =
        (a.1 == k) from by rw [updateConfigEntry_fst]]), jsGet]
  rcases hf : sec.find? (fun p => p.1 == k) with _ | p0
  · rw [hf]
    rfl
  · rw [hf]
    have hk := List.find?_some hf
    rcases p0 with ⟨k0, e0⟩
    have : k0 = k := by simpa using hk
    subst this
    rfl
theorem updateConfigEntry_recd (prop value : String)
    (build tn : Option String) (vc : List (Option String)) (k : String)
    (c : ConfigRecord) :
    updateConfigEntry prop value build tn vc (k, SEnt.recd c) =
      if isCommentKey k then (k, SEnt.recd c)
      else if optTruthyS tn ∧ ¬ vc.contains (some k) then (k, SEnt.recd c)
      else if (optTruthyS build ∧ c.name == build) ∨ ¬ optTruthyS build then
        (k, SEnt.recd { c with
          buildSettings := jsSet c.buildSettings prop value })
      else (k, SEnt.recd c) := rfl

theorem updateConfigEntry_skip (prop value : String)
    (build tn : Option String) (vc : List (Option String)) (k : String)
    (e : SEnt ConfigRecord) (htn : optTruthyS tn = true)
    (hnin : vc.contains (some k) = false) :
    updateConfigEntry prop value build tn vc (k, e) = (k, e) := by
  rw [updateConfigEntry]
  by_cases h1 : isCommentKey (k, e).1 = true
  · rw [if_pos h1]
  · rw [if_neg h1, if_pos ⟨htn, fun hc => by rw [hnin] at hc; exact Bool.noConfusion hc⟩]

/-- C4: with targets T1 and T2 whose Release configurations hold X and Y,
`updateBuildProperty("FOO", "Z", "Release", T1.name)` writes the property
into every configuration of T1's configuration list whose `name` is
`Release`, and leaves every configuration outside that list — in
particular every configuration of T2, hence T2's Release value Y —
unchanged, and touches no other bucket.  `vc` is the key list
`validConfigsFor` computes from T1's `buildConfigurationList`; the
nonemptiness of the target name reflects that target names are nonempty. -/
theorem c4_target_scoped_build_property_update (o : Objects)
    (prop value t1 : String) (vc : List (Option String)) (ht1 : t1 ≠ "")
    (hvc : validConfigsFor o (some t1) = Except.ok vc) :
    ∃ o2, updateBuildProperty o prop value (some "Release") (some t1) =
        Except.ok o2 ∧
      (∀ k c, jsGet o.xcBuildConfiguration k = some (SEnt.recd c) →
        isCommentKey k = false → vc.contains (some k) = true →
        c.name = some "Release" →
        jsGet o2.xcBuildConfiguration k =
          some (SEnt.recd { c with buildSettings := jsSet c.buildSettings prop value })) ∧
      (∀ k, vc.contains (some k) = false →
        jsGet o2.xcBuildConfiguration k = jsGet o.xcBuildConfiguration k) ∧
      o2.pbxNativeTarget = o.pbxNativeTarget ∧
      o2.xcConfigurationList = o.xcConfigurationList := by
  refine ⟨{ o with xcBuildConfiguration := updateConfigs o.xcBuildConfiguration prop value (some "Release") (some t1) vc }, ?_, ?_, ?_, rfl, rfl⟩
  · rw [updateBuildProperty, hvc]
  · intro k c hget hck hin hname
    rw [updateConfigs_jsGet, hget, Option.map_some', updateConfigEntry_recd,
      if_neg (by simp [hck]), if_neg (fun hc => hc.2 hin),
      if_pos (Or.inl ⟨by decide, by simp [hname]⟩)]
  · intro k hnin
    rw [updateConfigs_jsGet]
    rcases jsGet o.xcBuildConfiguration k with _ | e
    · rfl
    · rw [Option.map_some',
        updateConfigEntry_skip prop value (some "Release") (some t1) vc k e
          (by simp [optTruthyS, ht1]) hnin]

/-- C4 witness graph: targets `App1`/`App2` with configuration lists
`CL1`/`CL2` and Release configurations `C1R` (value X) and `C2R`
(value Y). -/
def c4OW : Objects :=
  { pbxNativeTarget :=
      [("T1KEY", SEnt.recd { name := some "App1", buildConfigurationList := some "CL1" }),
       ("T1KEY_comment", SEnt.cmt "App1"),
       ("T2KEY", SEnt.recd { name := some "App2", buildConfigurationList := some "CL2" }),
       ("T2KEY_comment", SEnt.cmt "App2")]
    xcConfigurationList :=
      [("CL1", SEnt.recd { buildConfigurations := [{ value := some "C1R", comment := some "Release" }] }),
       ("CL2", SEnt.recd { buildConfigurations := [{ value := some "C2R", comment := some "Release" }] })]
    xcBuildConfiguration :=
      [("C1R", SEnt.recd { name := some "Release", buildSettings := [("FOO", "X")] }),
       ("C2R", SEnt.recd { name := some "Release", buildSettings := [("FOO", "Y")] })] }

theorem c4_witness :
    ∃ o2, updateBuildProperty c4OW "FOO" "Z" (some "Release") (some "App1") =
        Except.ok o2 ∧
      (∀ k c, jsGet c4OW.xcBuildConfiguration k = some (SEnt.recd c) →
        isCommentKey k = false →
        ([some "C1R"] : List (Option String)).contains (some k) = true →
        c.name = some "Release" →
        jsGet o2.xcBuildConfiguration k =
          some (SEnt.recd { c with buildSettings := jsSet c.buildSettings "FOO" "Z" })) ∧
      (∀ k, ([some "C1R"] : List (Option String)).contains (some k) = false →
        jsGet o2.xcBuildConfiguration k = jsGet c4OW.xcBuildConfiguration k) ∧
      o2.pbxNativeTarget = c4OW.pbxNativeTarget ∧
      o2.xcConfigurationList = c4OW.xcConfigurationList :=
  c4_target_scoped_build_property_update c4OW "FOO" "Z" "App1"
    [some "C1R"] (by decide) (by rfl)
/-- Overwriting a key whose old and new entries both fail the predicate
does not change `find?`. -/
theorem find?_jsSet_of_pred_false {α : Type} (m : List (String × α))
    (k : String) (v : α) (pred : String × α → Bool)
    (hold : ∀ e, (k, e) ∈ m → pred (k, e) = false)
    (hnew : pred (k, v) = false) :
    (jsSet m k v).find? pred = m.find? pred := by
  rw [jsSet]
  by_cases hany : m.any (fun p => p.1 == k) = true
  · rw [if_pos hany,
      find?_map_preserving (fun a ha => by
        by_cases hk : (a.1 == k) = true
        · have hthis := hold a.2
          rw [← beq_iff_eq.1 hk, Prod.mk.eta] at hthis
          rw [if_pos hk, hnew, hthis ha]
        · rw [if_neg hk])]
    rcases hf : m.find? pred with _ | p0
    · rfl
    · have hp0 := List.find?_some hf
      have hmem := List.mem_of_find?_eq_some hf
      have hk0 : (p0.1 == k) = false := by
        rcases hbk : p0.1 == k with _ | _
        · rfl
        · have hthis := hold p0.2
          rw [← beq_iff_eq.1 hbk, Prod.mk.eta] at hthis
          rw [hthis hmem] at hp0
          exact Bool.noConfusion hp0
      simp [beq_eq_false_iff_ne.1 hk0]
  · rw [if_neg hany, List.find?_append,
      List.find?_cons_of_neg _ (by rw [hnew]; exact Bool.noConfusion)]
    rcases m.find? pred with _ | p0 <;> rfl

/-- Re-writing the same key collapses to the last write. -/
theorem jsSet_jsSet_same {α : Type} (m : List (String × α)) (k : String)
    (v v' : α) : jsSet (jsSet m k v) k v' = jsSet m k v' := by
  by_cases hany : m.any (fun p => p.1 == k) = true
  · have hany2 : (jsSet m k v).any (fun p => p.1 == k) = true := by
      obtain ⟨w, hw, hwp⟩ := List.any_eq_true.1 hany
      rw [jsSet, if_pos hany]
      exact List.any_eq_true.2 ⟨(k, v), List.mem_map.2 ⟨w, hw, by simp [hwp]⟩,
        by simp⟩
    rw [jsSet, if_pos hany2, jsSet, if_pos hany, jsSet, if_pos hany,
      List.map_map]
    refine List.map_congr_left fun a _ => ?_
    by_cases hk : (a.1 == k) = true <;> simp [hk, Function.comp]
  · have hany2 : (jsSet m k v).any (fun p => p.1 == k) = true := by
      rw [jsSet, if_neg hany]
      exact List.any_eq_true.2 ⟨(k, v), by simp, by simp⟩
    rw [jsSet, if_pos hany2, jsSet, if_neg hany, jsSet, if_neg hany,
      List.map_append]
    have h1 : (m.map fun p => if p.1 == k then (k, v') else p) = m := by
      refine (List.map_congr_left fun a ha => ?_).trans (List.map_id m)
      have hbk : (a.1 == k) = false := by
        rcases hbk : a.1 == k with _ | _
        · rfl
        · exact absurd (List.any_eq_true.2 ⟨a, ha, hbk⟩) hany
      rw [if_neg (by rw [hbk]; exact Bool.noConfusion)]
      rfl
    rw [h1]
    simp

/-- Writing back the value a key already (uniformly) holds is the
identity. -/
theorem jsSet_eq_self {α : Type} (m : List (String × α)) (k : String)
    (v : α) (hget : jsGet m k = some v)
    (hall : ∀ e, (k, e) ∈ m → e = v) : jsSet m k v = m := by
  have hany : m.any (fun p => p.1 == k) = true :=
    List.any_eq_true.2 ⟨(k, v), jsGet_mem hget, by simp⟩
  rw [jsSet, if_pos hany]
  refine (List.map_congr_left fun a ha => ?_).trans (List.map_id m)
  by_cases hk : (a.1 == k) = true
  · have hthis := hall a.2
    rw [← beq_iff_eq.1 hk, Prod.mk.eta] at hthis
    rw [if_pos hk, ← hthis ha, ← beq_iff_eq.1 hk, Prod.mk.eta]
    rfl
  · rw [if_neg hk]
    rfl

/-- `removeFirst` skips a prefix with no match. -/
theorem removeFirst_append_of_none {α : Type} (p : α → Bool)
    (l r : List α) (h : ∀ a ∈ l, p a = false) :
    removeFirst p (l ++ r) = l ++ removeFirst p r := by
  induction l with
  | nil => rfl
  | cons x xs ih =>
    rw [List.cons_append, removeFirst,
      if_neg (by rw [h x (by simp)]; exact Bool.noConfusion),
      ih fun a ha => h a (by simp [ha])]
    rfl

theorem removeFirst_singleton_pos {α : Type} (p : α → Bool) (x : α)
    (h : p x = true) : removeFirst p [x] = [] := by
  rw [removeFirst, if_pos h]
/-- `pbxGroupByName` resolved from its comment-scan and record lookup. -/
theorem pbxGroupByNameKey_of_find (o : Objects) (name gkc gk : String)
    (gce ge : SEnt GroupRecord)
    (hfind : o.pbxGroup.find?
      (fun q => isCommentKey q.1 && sentEqStr q.2 name) = some (gkc, gce))
    (hstrip : stripCommentSuffix gkc = gk)
    (hget : jsGet o.pbxGroup gk = some ge) :
    pbxGroupByNameKey o name = some (gk, ge) := by
  simp only [pbxGroupByNameKey, hfind, Option.some_bind, hstrip, hget,
    Option.map_some']

/-- `pbxGroupByName` after an in-place update of the (non-comment) group
record key: the comment scan is untouched and the lookup sees the new
record. -/
theorem pbxGroupByNameKey_jsSet_recd (o' : Objects) (m : Sect GroupRecord)
    (name gkc gk : String) (gce : SEnt GroupRecord) (g' : GroupRecord)
    (hm : o'.pbxGroup = jsSet m gk (SEnt.recd g'))
    (hfind : m.find?
      (fun q => isCommentKey q.1 && sentEqStr q.2 name) = some (gkc, gce))
    (hstrip : stripCommentSuffix gkc = gk)
    (hgknc : isCommentKey gk = false) :
    pbxGroupByNameKey o' name = some (gk, SEnt.recd g') := by
  rw [pbxGroupByNameKey, hm,
    find?_jsSet_of_pred_false m gk (SEnt.recd g') _
      (fun e _ => by simp [hgknc]) (by simp [hgknc])]
  simp only [hfind, Option.some_bind, hstrip, jsGet_jsSet_self,
    Option.map_some']
/-- Insertion into the file-reference section at fresh keys appends the
record and its comment shadow. -/
theorem addToPbxFileReferenceSection_fresh (o : Objects) (f : PbxFile)
    (P u : String) (hp : f.path = some P) (hfr : f.fileRef = some u)
    (hfresh1 : u ∉ o.pbxFileReference.map Prod.fst)
    (hfresh2 : u ++ "_comment" ∉ o.pbxFileReference.map Prod.fst) :
    addToPbxFileReferenceSection o f =
      Except.ok { o with pbxFileReference := o.pbxFileReference ++
        [(u, SEnt.recd
          { name := some ("\"" ++ f.basename ++ "\"")
            path := some ("\"" ++ replBackslash P ++ "\"")
            sourceTree := some f.sourceTree
            fileEncoding := f.fileEncoding
            lastKnownFileType := f.lastKnownFileType
            explicitFileType := f.explicitFileType
            includeInIndex := some f.includeInIndex }),
         (u ++ "_comment", SEnt.cmt (pbxFileReferenceComment f))] } := by
  have hobj : pbxFileReferenceObj f = Except.ok
      { name := some ("\"" ++ f.basename ++ "\"")
        path := some ("\"" ++ replBackslash P ++ "\"")
        sourceTree := some f.sourceTree
        fileEncoding := f.fileEncoding
        lastKnownFileType := f.lastKnownFileType
        explicitFileType := f.explicitFileType
        includeInIndex := some f.includeInIndex } := by
    rw [pbxFileReferenceObj, hp]
  have hfresh2' : u ++ "_comment" ∉
      (o.pbxFileReference ++ [(u, SEnt.recd
        ({ name := some ("\"" ++ f.basename ++ "\"")
           path := some ("\"" ++ replBackslash P ++ "\"")
           sourceTree := some f.sourceTree
           fileEncoding := f.fileEncoding
           lastKnownFileType := f.lastKnownFileType
           explicitFileType := f.explicitFileType
           includeInIndex := some f.includeInIndex } : FileRefRecord))]).map Prod.fst := by
    rw [List.map_append]
    intro hc
    rcases List.mem_append.1 hc with hc1 | hc2
    · exact hfresh2 hc1
    · simp at hc2
      exact self_ne_append_comment u hc2.symm
  simp only [addToPbxFileReferenceSection, hobj, hfr, jsShowO]
  rw [jsSet_fresh _ hfresh1, jsSet_fresh _ hfresh2', List.append_assoc]
  rfl
/-- A successful `addPluginFile` on a graph with a Plugins group (record
with children, non-truthy path), no duplicate path, and fresh identifiers:
the file-reference bucket gains the record and its comment shadow, the
Plugins group's children gain the reference, and no other bucket changes. -/
theorem addPluginFile_success (o : Objects) (p : String)
    (opt : PbxFileOptions) (uFileRef ug u1 u2 : String) (P gkc gk : String)
    (gce : SEnt GroupRecord) (g : GroupRecord) (ch : List GroupChild)
    (hpath : (mkPbxFile p opt).path = some P)
    (hfindg : o.pbxGroup.find?
      (fun q => isCommentKey q.1 && sentEqStr q.2 "Plugins") = some (gkc, gce))
    (hstripg : stripCommentSuffix gkc = gk)
    (hgrec : jsGet o.pbxGroup gk = some (SEnt.recd g))
    (hgpath : optTruthyS g.path = false)
    (hch : g.children = some ch)
    (hdup : hasFileTruthy o (mkPbxFile p opt).path = false)
    (hfr1 : uFileRef ∉ o.pbxFileReference.map Prod.fst)
    (hfr2 : uFileRef ++ "_comment" ∉ o.pbxFileReference.map Prod.fst) :
    ∃ F2 O2 R cmt,
      addPluginFile o p opt uFileRef ug u1 u2 = Except.ok (some (F2, O2)) ∧
      F2.basename = (mkPbxFile p opt).basename ∧
      F2.path = some P ∧
      F2.group = (mkPbxFile p opt).group ∧
      F2.settings = (mkPbxFile p opt).settings ∧
      F2.fileRef = some uFileRef ∧
      O2.pbxFileReference = o.pbxFileReference ++
        [(uFileRef, SEnt.recd R), (uFileRef ++ "_comment", SEnt.cmt cmt)] ∧
      frMatch (SEnt.recd R)
        ("\"" ++ (mkPbxFile p opt).basename ++ "\"")
        ("\"" ++ P ++ "\"") = true ∧
      O2.pbxGroup = jsSet o.pbxGroup gk (SEnt.recd { g with children := some (ch ++ [{ value := some uFileRef, comment := some (mkPbxFile p opt).basename }]) }) ∧
      O2.pbxBuildFile = o.pbxBuildFile ∧
      O2.pbxSourcesBuildPhase = o.pbxSourcesBuildPhase ∧
      O2.pbxNativeTarget = o.pbxNativeTarget ∧
      O2.pbxVariantGroup = o.pbxVariantGroup ∧
      O2.xcBuildConfiguration = o.xcBuildConfiguration ∧
      O2.xcConfigurationList = o.xcConfigurationList ∧
      O2.pbxTargetDependency = o.pbxTargetDependency ∧
      O2.pbxContainerItemProxy = o.pbxContainerItemProxy := by
  have hgnp : ¬(optTruthyS g.path = true) := fun hc => by
    rw [hgpath] at hc
    exact Bool.noConfusion hc
  have hdup' : hasFileTruthy o (some P) = false := hpath ▸ hdup
  refine ⟨{ (mkPbxFile p opt) with
      path := some P
      plugin := true
      fileRef := some uFileRef },
    { o with
      pbxFileReference := o.pbxFileReference ++
        [(uFileRef, SEnt.recd
          { name := some ("\"" ++ (mkPbxFile p opt).basename ++ "\"")
            path := some ("\"" ++ replBackslash P ++ "\"")
            sourceTree := some (mkPbxFile p opt).sourceTree
            fileEncoding := (mkPbxFile p opt).fileEncoding
            lastKnownFileType := (mkPbxFile p opt).lastKnownFileType
            explicitFileType := (mkPbxFile p opt).explicitFileType
            includeInIndex := some (mkPbxFile p opt).includeInIndex }),
         (uFileRef ++ "_comment", SEnt.cmt (pbxFileReferenceComment
           { (mkPbxFile p opt) with
             path := some P
             plugin := true
             fileRef := some uFileRef }))]
      pbxGroup := jsSet o.pbxGroup gk (SEnt.recd { g with children := some (ch ++ [pbxGroupChild { (mkPbxFile p opt) with
        path := some P
        plugin := true
        fileRef := some uFileRef }]) }) },
    { name := some ("\"" ++ (mkPbxFile p opt).basename ++ "\"")
      path := some ("\"" ++ replBackslash P ++ "\"")
      sourceTree := some (mkPbxFile p opt).sourceTree
      fileEncoding := (mkPbxFile p opt).fileEncoding
      lastKnownFileType := (mkPbxFile p opt).lastKnownFileType
      explicitFileType := (mkPbxFile p opt).explicitFileType
      includeInIndex := some (mkPbxFile p opt).includeInIndex },
    pbxFileReferenceComment { (mkPbxFile p opt) with
      path := some P
      plugin := true
      fileRef := some uFileRef },
    ?heq, ?hb, ?hpp, ?hgg, ?hss, ?hff, ?href,
    ?hmatch, ?hgrp, ?w1, ?w2, ?w3, ?w4, ?w5, ?w6, ?w7, ?w8⟩
  case heq =>
    conv_lhs => simp only [addPluginFile, correctForPluginsPath,
      correctForPath, pbxGroupByNameKey, hfindg, Option.some_bind, hstripg,
      hgrec, Option.map_some']
    rw [if_neg hgnp]
    conv_lhs => simp only [hpath, hdup', Option.isSome_some,
      Bool.false_eq_true, and_false, if_false]
    rw [addToPbxFileReferenceSection_fresh _ _ P uFileRef rfl rfl hfr1 hfr2]
    conv_lhs => simp only [addToPluginsPbxGroup, pbxGroupByNameKey, hfindg,
      Option.some_bind, hstripg, hgrec, Option.map_some', hch]
  case href => rfl
  case hb => rfl
  case hpp => rfl
  case hgg => rfl
  case hss => rfl
  case hff => rfl
  case hmatch => simp [frMatch]
  case hgrp => rfl
  case w1 => rfl
  case w2 => rfl
  case w3 => rfl
  case w4 => rfl
  case w5 => rfl
  case w6 => rfl
  case w7 => rfl
  case w8 => rfl
/-- `buildPhaseObjSources` with an undefined target (the no-`target`-option
path): `buildPhase` yields `undefined` and the comment scan resolves the
Sources phase. -/
theorem buildPhaseObjSources_ok_none (o' : Objects) (pkc pk : String)
    (pce : SEnt PhaseRecord) (ph : PhaseRecord)
    (hfindp : o'.pbxSourcesBuildPhase.find?
      (fun q => isCommentKey q.1 && sentEqStr q.2 "Sources") = some (pkc, pce))
    (hstripp : stripCommentSuffix pkc = pk)
    (hprec : jsGet o'.pbxSourcesBuildPhase pk = some (SEnt.recd ph)) :
    buildPhaseObjSources o' "Sources" none =
      Except.ok (some (pk, SEnt.recd ph)) := by
  have hbp : buildPhase o' "Sources" none = Except.ok none := by
    rw [buildPhase, dif_neg]
    intro hc
    simp [optTruthyS] at hc
  simp only [buildPhaseObjSources, hbp, Bool.and_true, hfindp,
    Option.some_bind, hstripp, hprec, Option.map_some']
/-- A successful grouped run of `addSourceFile` on the plugin path: the
file-reference, Plugins-group, build-file and Sources-phase buckets gain
exactly the new records, and nothing else changes. -/
theorem addSourceFilePlugin_success (o : Objects) (p : String)
    (opt : PbxFileOptions) (uFileRef ug u1 u2 uBuild : String)
    (P gkc gk pkc pk : String) (gce : SEnt GroupRecord) (g : GroupRecord)
    (ch : List GroupChild) (pce : SEnt PhaseRecord) (ph : PhaseRecord)
    (hpath : (mkPbxFile p opt).path = some P)
    (hht : opt.hasTarget = false)
    (hfindg : o.pbxGroup.find?
      (fun q => isCommentKey q.1 && sentEqStr q.2 "Plugins") = some (gkc, gce))
    (hstripg : stripCommentSuffix gkc = gk)
    (hgrec : jsGet o.pbxGroup gk = some (SEnt.recd g))
    (hgpath : optTruthyS g.path = false)
    (hch : g.children = some ch)
    (hdup : hasFileTruthy o (mkPbxFile p opt).path = false)
    (hfr1 : uFileRef ∉ o.pbxFileReference.map Prod.fst)
    (hfr2 : uFileRef ++ "_comment" ∉ o.pbxFileReference.map Prod.fst)
    (hfindp : o.pbxSourcesBuildPhase.find?
      (fun q => isCommentKey q.1 && sentEqStr q.2 "Sources") = some (pkc, pce))
    (hstripp : stripCommentSuffix pkc = pk)
    (hprec : jsGet o.pbxSourcesBuildPhase pk = some (SEnt.recd ph)) :
    ∃ F3 O4 R cmt,
      addSourceFilePlugin o p opt uFileRef ug u1 u2 uBuild =
        Except.ok (some (F3, O4)) ∧
      F3.basename = (mkPbxFile p opt).basename ∧
      F3.path = some P ∧
      F3.group = (mkPbxFile p opt).group ∧
      F3.settings = (mkPbxFile p opt).settings ∧
      F3.fileRef = some uFileRef ∧
      O4.pbxFileReference = o.pbxFileReference ++
        [(uFileRef, SEnt.recd R), (uFileRef ++ "_comment", SEnt.cmt cmt)] ∧
      frMatch (SEnt.recd R)
        ("\"" ++ (mkPbxFile p opt).basename ++ "\"")
        ("\"" ++ P ++ "\"") = true ∧
      O4.pbxGroup = jsSet o.pbxGroup gk (SEnt.recd { g with children := some (ch ++ [{ value := some uFileRef, comment := some (mkPbxFile p opt).basename }]) }) ∧
      O4.pbxBuildFile = jsSet (jsSet o.pbxBuildFile uBuild (SEnt.recd { fileRef := some uFileRef, fileRefComment := some (mkPbxFile p opt).basename, settings := (mkPbxFile p opt).settings })) (uBuild ++ "_comment") (SEnt.cmt ((mkPbxFile p opt).basename ++ " in " ++ jsShowO (mkPbxFile p opt).group)) ∧
      O4.pbxSourcesBuildPhase = jsSet o.pbxSourcesBuildPhase pk (SEnt.recd { ph with files := ph.files ++ [{ value := some uBuild, comment := some ((mkPbxFile p opt).basename ++ " in " ++ jsShowO (mkPbxFile p opt).group) }] }) ∧
      O4.pbxNativeTarget = o.pbxNativeTarget ∧
      O4.pbxVariantGroup = o.pbxVariantGroup ∧
      O4.xcBuildConfiguration = o.xcBuildConfiguration ∧
      O4.xcConfigurationList = o.xcConfigurationList ∧
      O4.pbxTargetDependency = o.pbxTargetDependency ∧
      O4.pbxContainerItemProxy = o.pbxContainerItemProxy := by
  obtain ⟨F2, O2, R, cmt, heq2, hb2, hp2, hg2, hs2, hf2, href2, hmatch2,
    hgrp2, w1, w2, w3, w4, w5, w6, w7, w8⟩ :=
    addPluginFile_success o p opt uFileRef ug u1 u2 P gkc gk gce g ch
      hpath hfindg hstripg hgrec hgpath hch hdup hfr1 hfr2
  have h1 : (addToPbxBuildFileSection O2 { F2 with
      target := none
      uuid := some uBuild }).pbxSourcesBuildPhase = o.pbxSourcesBuildPhase :=
    w2
  have hbpo := buildPhaseObjSources_ok_none
    (addToPbxBuildFileSection O2 { F2 with
      target := none
      uuid := some uBuild }) pkc pk pce ph
    (h1.symm ▸ hfindp) hstripp (h1.symm ▸ hprec)
  refine ⟨{ F2 with
      target := none
      uuid := some uBuild },
    { O2 with
      pbxBuildFile := jsSet (jsSet o.pbxBuildFile uBuild (SEnt.recd { fileRef := some uFileRef, fileRefComment := some (mkPbxFile p opt).basename, settings := (mkPbxFile p opt).settings })) (uBuild ++ "_comment") (SEnt.cmt ((mkPbxFile p opt).basename ++ " in " ++ jsShowO (mkPbxFile p opt).group))
      pbxSourcesBuildPhase := jsSet o.pbxSourcesBuildPhase pk (SEnt.recd { ph with files := ph.files ++ [{ value := some uBuild, comment := some ((mkPbxFile p opt).basename ++ " in " ++ jsShowO (mkPbxFile p opt).group) }] }) },
    R, cmt, ?heq, ?hb, ?hpp, ?hgg, ?hss, ?hff, ?href, ?hmatch, ?hgrp,
    ?x1, ?x2, ?x3, ?x4, ?x5, ?x6, ?x7, ?x8⟩
  case heq =>
    conv_lhs => simp only [addSourceFilePlugin, heq2]
    conv_lhs => simp only [hht, Bool.false_eq_true, if_false]
    conv_lhs => simp only [addToPbxSourcesBuildPhase, hbpo]
    conv_lhs => simp only [addToPbxBuildFileSection, pbxBuildFileObj,
      pbxBuildPhaseObj, longComment]
    rw [hb2, hg2, hs2, hf2, w1, w2]
    rfl
  case hb => exact hb2
  case hpp => exact hp2
  case hgg => exact hg2
  case hss => exact hs2
  case hff => exact hf2
  case href => exact href2
  case hmatch => exact hmatch2
  case hgrp => exact hgrp2
  case x1 => rfl
  case x2 => rfl
  case x3 => exact w3
  case x4 => exact w4
  case x5 => exact w5
  case x6 => exact w6
  case x7 => exact w7
  case x8 => exact w8
/-- `removeSourceFile` (plugin path) on the graph `addSourceFile` produced
— stated through the bucket equations of `addSourceFilePlugin_success` —
restores the original graph exactly, provided the original graph had no
other entry matching the descriptor's name/path, basename, group child or
phase comment. -/
theorem removeSourceFilePlugin_success (o O4 : Objects) (p : String)
    (opt : PbxFileOptions) (uFileRef uBuild : String)
    (P gkc gk pkc pk : String) (gce : SEnt GroupRecord) (g : GroupRecord)
    (ch : List GroupChild) (pce : SEnt PhaseRecord) (ph : PhaseRecord)
    (R : FileRefRecord) (cmt : String)
    (hpath : (mkPbxFile p opt).path = some P)
    (hidem : replBackslash P = P)
    (hht : opt.hasTarget = false)
    (hfindg : o.pbxGroup.find?
      (fun q => isCommentKey q.1 && sentEqStr q.2 "Plugins") = some (gkc, gce))
    (hstripg : stripCommentSuffix gkc = gk)
    (hgknc : isCommentKey gk = false)
    (hgrec : jsGet o.pbxGroup gk = some (SEnt.recd g))
    (hgall : ∀ e, (gk, e) ∈ o.pbxGroup → e = SEnt.recd g)
    (hgpath : optTruthyS g.path = false)
    (hch : g.children = some ch)
    (hfindp : o.pbxSourcesBuildPhase.find?
      (fun q => isCommentKey q.1 && sentEqStr q.2 "Sources") = some (pkc, pce))
    (hstripp : stripCommentSuffix pkc = pk)
    (hpknc : isCommentKey pk = false)
    (hprec : jsGet o.pbxSourcesBuildPhase pk = some (SEnt.recd ph))
    (hpall : ∀ e, (pk, e) ∈ o.pbxSourcesBuildPhase → e = SEnt.recd ph)
    (hnofr : ∀ q ∈ o.pbxFileReference, frMatch q.2
      ("\"" ++ (mkPbxFile p opt).basename ++ "\"") ("\"" ++ P ++ "\"") = false)
    (hnoch : ∀ c ∈ ch, jsEqOO (some uFileRef) c.value = false)
    (hnobf : ∀ q ∈ o.pbxBuildFile,
      bfMatch q.2 (mkPbxFile p opt).basename = false)
    (hnoph : ∀ c ∈ ph.files, jsEqOS c.comment
      ((mkPbxFile p opt).basename ++ " in " ++
        jsShowO (mkPbxFile p opt).group) = false)
    (hfr1 : uFileRef ∉ o.pbxFileReference.map Prod.fst)
    (hfr2 : uFileRef ++ "_comment" ∉ o.pbxFileReference.map Prod.fst)
    (hub1 : uBuild ∉ o.pbxBuildFile.map Prod.fst)
    (hub2 : uBuild ++ "_comment" ∉ o.pbxBuildFile.map Prod.fst)
    (hubnc : isCommentKey uBuild = false)
    (hmatch : frMatch (SEnt.recd R)
      ("\"" ++ (mkPbxFile p opt).basename ++ "\"")
      ("\"" ++ P ++ "\"") = true)
    (bref : O4.pbxFileReference = o.pbxFileReference ++
      [(uFileRef, SEnt.recd R), (uFileRef ++ "_comment", SEnt.cmt cmt)])
    (bgrp : O4.pbxGroup = jsSet o.pbxGroup gk (SEnt.recd { g with children := some (ch ++ [{ value := some uFileRef, comment := some (mkPbxFile p opt).basename }]) }))
    (bbf : O4.pbxBuildFile = jsSet (jsSet o.pbxBuildFile uBuild (SEnt.recd { fileRef := some uFileRef, fileRefComment := some (mkPbxFile p opt).basename, settings := (mkPbxFile p opt).settings })) (uBuild ++ "_comment") (SEnt.cmt ((mkPbxFile p opt).basename ++ " in " ++ jsShowO (mkPbxFile p opt).group)))
    (bph : O4.pbxSourcesBuildPhase = jsSet o.pbxSourcesBuildPhase pk (SEnt.recd { ph with files := ph.files ++ [{ value := some uBuild, comment := some ((mkPbxFile p opt).basename ++ " in " ++ jsShowO (mkPbxFile p opt).group) }] }))
    (bnt : O4.pbxNativeTarget = o.pbxNativeTarget)
    (bvg : O4.pbxVariantGroup = o.pbxVariantGroup)
    (bxb : O4.xcBuildConfiguration = o.xcBuildConfiguration)
    (bxl : O4.xcConfigurationList = o.xcConfigurationList)
    (btd : O4.pbxTargetDependency = o.pbxTargetDependency)
    (bcp : O4.pbxContainerItemProxy = o.pbxContainerItemProxy) :
    ∃ F4, removeSourceFilePlugin O4 p opt = Except.ok (o, F4) := by
  -- the Plugins group lookup in the post-add graph
  have hOg : pbxGroupByNameKey O4 "Plugins" = some (gk, SEnt.recd { g with children := some (ch ++ [{ value := some uFileRef, comment := some (mkPbxFile p opt).basename }]) }) :=
    pbxGroupByNameKey_jsSet_recd O4 o.pbxGroup "Plugins" gkc gk gce _
      bgrp hfindg hstripg hgknc
  have hg2path : optTruthyS ({ g with children := some (ch ++ [{ value := some uFileRef, comment := some (mkPbxFile p opt).basename }]) } : GroupRecord).path = false := hgpath
  have hgnp2 : ¬(optTruthyS ({ g with children := some (ch ++ [{ value := some uFileRef, comment := some (mkPbxFile p opt).basename }]) } : GroupRecord).path = true) :=
    fun hc => Bool.noConfusion (hg2path ▸ hc)
  have hcfp : correctForPluginsPath (mkPbxFile p opt) O4 =
      Except.ok (mkPbxFile p opt) := by
    rw [correctForPluginsPath, correctForPath]
    simp only [hOg]
    rw [if_neg hgnp2]
  -- the file-reference scan hits the inserted record first
  have hobj : pbxFileReferenceObj (mkPbxFile p opt) = Except.ok
      { name := some ("\"" ++ (mkPbxFile p opt).basename ++ "\"")
        path := some ("\"" ++ replBackslash P ++ "\"")
        sourceTree := some (mkPbxFile p opt).sourceTree
        fileEncoding := (mkPbxFile p opt).fileEncoding
        lastKnownFileType := (mkPbxFile p opt).lastKnownFileType
        explicitFileType := (mkPbxFile p opt).explicitFileType
        includeInIndex := some (mkPbxFile p opt).includeInIndex } := by
    rw [pbxFileReferenceObj, hpath]
  have hfind4 : O4.pbxFileReference.find? (fun q => frMatch q.2
      ("\"" ++ (mkPbxFile p opt).basename ++ "\"")
      ("\"" ++ replBackslash P ++ "\"")) = some (uFileRef, SEnt.recd R) := by
    rw [hidem, bref, List.find?_append, List.find?_eq_none.2
      (fun q hq hc => by rw [hnofr q hq] at hc; exact Bool.noConfusion hc)]
    simp [hmatch]
  have hne_uc_u : ((uFileRef ++ "_comment") != uFileRef) = true := by
    rw [bne_iff_ne]
    exact fun hc => self_ne_append_comment uFileRef hc.symm
  have hSfilter : ∀ {α : Type} (m : List (String × α)) (k0 : String),
      k0 ∉ m.map Prod.fst → m.filter (fun q => q.1 != k0) = m := by
    intro α m k0 hk0
    rw [List.filter_eq_self]
    intro q hq
    rw [bne_iff_ne]
    intro hc
    exact hk0 (hc ▸ List.mem_map.2 ⟨q, hq, rfl⟩)
  have hfref : removeFromPbxFileReferenceSection O4 (mkPbxFile p opt) =
      Except.ok ({ O4 with pbxFileReference := o.pbxFileReference },
        { (mkPbxFile p opt) with
          fileRef := some uFileRef
          uuid := some uFileRef }) := by
    simp only [removeFromPbxFileReferenceSection, hobj, jsShowO, hfind4]
    rw [bref, jsDelete, List.filter_append, hSfilter _ _ hfr1]
    simp only [List.filter_cons, bne_self_eq_false, Bool.false_eq_true,
      if_false, hne_uc_u, if_true, List.filter_nil]
    rw [jsGet_append, jsGet_eq_none_of_not_mem hfr2]
    simp only [Option.none_or, jsGet, List.find?_cons_of_pos _
      (by simp : (((uFileRef ++ "_comment", SEnt.cmt cmt) :
        String × SEnt FileRefRecord).1 == uFileRef ++ "_comment") = true),
      Option.map_some', Option.isSome_some, if_true]
    rw [jsDelete, List.filter_append, hSfilter _ _ hfr2]
    simp only [List.filter_cons, bne_self_eq_false, Bool.false_eq_true,
      if_false, List.filter_nil, List.append_nil]
    simp
  have hOg5 : pbxGroupByNameKey
      ({ O4 with pbxFileReference := o.pbxFileReference } : Objects)
      "Plugins" = some (gk, SEnt.recd { g with children := some (ch ++ [{ value := some uFileRef, comment := some (mkPbxFile p opt).basename }]) }) :=
    pbxGroupByNameKey_jsSet_recd _ o.pbxGroup "Plugins" gkc gk gce _
      bgrp hfindg hstripg hgknc
  have hgrpfull : jsSet O4.pbxGroup gk
      (SEnt.recd { g with children := some ch }) = o.pbxGroup := by
    rw [bgrp, jsSet_jsSet_same, ← hch]
    exact jsSet_eq_self o.pbxGroup gk (SEnt.recd g) hgrec hgall
  have hrfg : removeFirst (fun c => jsEqOO (some uFileRef) c.value &&
      jsEqOO (some (mkPbxFile p opt).basename) c.comment)
      (ch ++ [{ value := some uFileRef,
                comment := some (mkPbxFile p opt).basename }]) = ch := by
    rw [removeFirst_append_of_none _ _ _
      (fun c hc => by rw [hnoch c hc, Bool.false_and]),
      removeFirst_singleton_pos _ _ (by simp [jsEqOO]), List.append_nil]
  have hremplug : removePluginFile O4 p opt = Except.ok
      ({ O4 with
         pbxFileReference := o.pbxFileReference
         pbxGroup := o.pbxGroup },
       { (mkPbxFile p opt) with
         fileRef := some uFileRef
         uuid := some uFileRef }) := by
    simp only [removePluginFile, hcfp, hfref]
    simp only [removeFromPluginsPbxGroup, hOg5, pbxGroupChild]
    rw [hrfg, hgrpfull]
  -- build-file bucket: appended form, then the loop removes exactly the pair
  have hub2x : uBuild ++ "_comment" ∉
      (o.pbxBuildFile ++ [(uBuild, SEnt.recd ({ fileRef := some uFileRef, fileRefComment := some (mkPbxFile p opt).basename, settings := (mkPbxFile p opt).settings } : BuildFileRecord))]).map Prod.fst := by
    rw [List.map_append]
    intro hc
    rcases List.mem_append.1 hc with hc1 | hc2
    · exact hub2 hc1
    · simp at hc2
      exact self_ne_append_comment uBuild hc2.symm
  have hbf2 : O4.pbxBuildFile = o.pbxBuildFile ++
      [(uBuild, SEnt.recd ({ fileRef := some uFileRef, fileRefComment := some (mkPbxFile p opt).basename, settings := (mkPbxFile p opt).settings } : BuildFileRecord)),
       (uBuild ++ "_comment", SEnt.cmt ((mkPbxFile p opt).basename ++ " in " ++ jsShowO (mkPbxFile p opt).group))] := by
    rw [bbf, jsSet_fresh _ hub1, jsSet_fresh _ hub2x, List.append_assoc]
    rfl
  have hmBF : bfMatch (SEnt.recd ({ fileRef := some uFileRef, fileRefComment := some (mkPbxFile p opt).basename, settings := (mkPbxFile p opt).settings } : BuildFileRecord)) (mkPbxFile p opt).basename = true := by
    simp [bfMatch]
  have hwbf : ∀ q ∈ o.pbxBuildFile ++
      [(uBuild, SEnt.recd ({ fileRef := some uFileRef, fileRefComment := some (mkPbxFile p opt).basename, settings := (mkPbxFile p opt).settings } : BuildFileRecord)),
       (uBuild ++ "_comment", SEnt.cmt ((mkPbxFile p opt).basename ++ " in " ++ jsShowO (mkPbxFile p opt).group))],
      bfMatch q.2 (mkPbxFile p opt).basename = true → isCommentKey q.1 = false := by
    intro q hq hm
    rcases List.mem_append.1 hq with hq1 | hq2
    · rw [hnobf q hq1] at hm
      exact Bool.noConfusion hm
    · simp only [List.mem_cons, List.not_mem_nil, or_false] at hq2
      rcases hq2 with hq2 | hq2
      · rw [hq2]
        exact hubnc
      · rw [hq2] at hm
        exact Bool.noConfusion hm
  have hf1 : o.pbxBuildFile.filter
      (fun q => !bfMatch q.2 (mkPbxFile p opt).basename) = o.pbxBuildFile :=
    List.filter_eq_self.2 (fun q hq => by rw [hnobf q hq]; rfl)
  have hf2 : o.pbxBuildFile.filter
      (fun q => bfMatch q.2 (mkPbxFile p opt).basename) = [] := by
    rw [List.filter_eq_nil_iff]
    intro q hq hc
    rw [hnobf q hq] at hc
    exact Bool.noConfusion hc
  have hinner : (o.pbxBuildFile ++
      [(uBuild, SEnt.recd ({ fileRef := some uFileRef, fileRefComment := some (mkPbxFile p opt).basename, settings := (mkPbxFile p opt).settings } : BuildFileRecord)),
       (uBuild ++ "_comment", SEnt.cmt ((mkPbxFile p opt).basename ++ " in " ++ jsShowO (mkPbxFile p opt).group))]).filter
      (fun q => !bfMatch q.2 (mkPbxFile p opt).basename) =
      o.pbxBuildFile ++ [(uBuild ++ "_comment", SEnt.cmt ((mkPbxFile p opt).basename ++ " in " ++ jsShowO (mkPbxFile p opt).group))] := by
    rw [List.filter_append, hf1]
    simp only [List.filter_cons, hmBF, Bool.not_true, Bool.false_eq_true,
      if_false, List.filter_nil]
    rfl
  have hshadow : (o.pbxBuildFile ++
      [(uBuild, SEnt.recd ({ fileRef := some uFileRef, fileRefComment := some (mkPbxFile p opt).basename, settings := (mkPbxFile p opt).settings } : BuildFileRecord)),
       (uBuild ++ "_comment", SEnt.cmt ((mkPbxFile p opt).basename ++ " in " ++ jsShowO (mkPbxFile p opt).group))]).filter
      (fun r => bfMatch r.2 (mkPbxFile p opt).basename) =
      [(uBuild, SEnt.recd ({ fileRef := some uFileRef, fileRefComment := some (mkPbxFile p opt).basename, settings := (mkPbxFile p opt).settings } : BuildFileRecord))] := by
    rw [List.filter_append, hf2]
    simp only [List.filter_cons, hmBF, if_true, List.filter_nil,
      List.nil_append]
    rfl
  have hbfback : rmBFGo (mkPbxFile p opt).basename [] O4.pbxBuildFile =
      o.pbxBuildFile := by
    rw [hbf2, rmBFGo_spec _ [] _ hwbf, List.nil_append]
    rw [hinner]
    simp only [hshadow, List.any_cons, List.any_nil, Bool.or_false]
    rw [List.filter_append]
    rw [List.filter_eq_self.2 (fun q hq => by
      have hne : q.1 ≠ uBuild ++ "_comment" := fun hc =>
        hub2 (hc ▸ List.mem_map.2 ⟨q, hq, rfl⟩)
      simp [hne])]
    simp
  -- Sources-phase lookup and restoration
  have hfind7 : O4.pbxSourcesBuildPhase.find?
      (fun q => isCommentKey q.1 && sentEqStr q.2 "Sources") =
      some (pkc, pce) := by
    rw [bph, find?_jsSet_of_pred_false _ _ _ _
      (fun e _ => by simp [hpknc]) (by simp [hpknc])]
    exact hfindp
  have hget7 : jsGet O4.pbxSourcesBuildPhase pk =
      some (SEnt.recd ({ files := ph.files ++ [{ value := some uBuild, comment := some ((mkPbxFile p opt).basename ++ " in " ++ jsShowO (mkPbxFile p opt).group) }] } : PhaseRecord)) := by
    rw [bph]
    exact jsGet_jsSet_self _ _ _
  have hbpo7 := buildPhaseObjSources_ok_none
    ({ O4 with
       pbxFileReference := o.pbxFileReference
       pbxGroup := o.pbxGroup
       pbxBuildFile := o.pbxBuildFile } : Objects) pkc pk pce
    ({ files := ph.files ++ [{ value := some uBuild, comment := some ((mkPbxFile p opt).basename ++ " in " ++ jsShowO (mkPbxFile p opt).group) }] } : PhaseRecord)
    hfind7 hstripp hget7
  have hrfp : removeFirst (fun c => jsEqOS c.comment
      ((mkPbxFile p opt).basename ++ " in " ++
        jsShowO (mkPbxFile p opt).group))
      (ph.files ++ [{ value := some uBuild, comment := some ((mkPbxFile p opt).basename ++ " in " ++ jsShowO (mkPbxFile p opt).group) }]) = ph.files := by
    rw [removeFirst_append_of_none _ _ _ (fun c hc => hnoph c hc),
      removeFirst_singleton_pos _ _ (by simp [jsEqOS]), List.append_nil]
  have hphfull : jsSet O4.pbxSourcesBuildPhase pk
      (SEnt.recd ({ files := ph.files } : PhaseRecord)) =
      o.pbxSourcesBuildPhase := by
    rw [bph, jsSet_jsSet_same]
    exact jsSet_eq_self _ _ _ hprec (fun e he => by rw [hpall e he])
  refine ⟨{ (mkPbxFile p opt) with
      fileRef := some uFileRef
      uuid := some uFileRef
      target := none }, ?_⟩
  conv_lhs => simp only [removeSourceFilePlugin, hremplug]
  conv_lhs => simp only [hht, Bool.false_eq_true, if_false]
  conv_lhs => simp only [removeFromPbxBuildFileSection]
  rw [hbfback]
  conv_lhs => simp only [removeFromPbxSourcesBuildPhase, hbpo7]
  conv_lhs => simp only [longComment]
  rw [hrfp, hphfull]
  rw [bnt, bvg, bxb, bxl, btd, bcp]
/-- C3 counterexample graph: a Plugins group, a Sources phase, and a
pre-existing tracked file `OtherDir/foo.m` whose basename `foo.m` equals
the basename of the file about to be added. -/
def c3OW : Objects :=
  { pbxFileReference :=
      [("EXISTFR", SEnt.recd { name := some "\"foo.m\"", path := some "\"OtherDir/foo.m\"", sourceTree := some "\"<group>\"" }),
       ("EXISTFR_comment", SEnt.cmt "foo.m")]
    pbxBuildFile :=
      [("EXISTBF", SEnt.recd { fileRef := some "EXISTFR", fileRefComment := some "foo.m" }),
       ("EXISTBF_comment", SEnt.cmt "foo.m in Sources")]
    pbxGroup :=
      [("GRPKEY", SEnt.recd { name := some "Plugins", children := some [] }),
       ("GRPKEY_comment", SEnt.cmt "Plugins")]
    pbxSourcesBuildPhase :=
      [("PHKEY", SEnt.recd { files := [] }),
       ("PHKEY_comment", SEnt.cmt "Sources")] }

/-- The graph after `addSourceFile("Plugins/foo.m")` on `c3OW`. -/
def c3O4v : Objects :=
  { pbxBuildFile :=
      [("EXISTBF", SEnt.recd { fileRef := some "EXISTFR", fileRefComment := some "foo.m" }),
       ("EXISTBF_comment", SEnt.cmt "foo.m in Sources"),
       ("BU1", SEnt.recd { fileRef := some "FR1", fileRefComment := some "foo.m" }),
       ("BU1_comment", SEnt.cmt "foo.m in Sources")]
    pbxFileReference :=
      [("EXISTFR", SEnt.recd { name := some "\"foo.m\"", path := some "\"OtherDir/foo.m\"", sourceTree := some "\"<group>\"" }),
       ("EXISTFR_comment", SEnt.cmt "foo.m"),
       ("FR1", SEnt.recd { name := some "\"foo.m\"", path := some "\"Plugins/foo.m\"", sourceTree := some "\"<group>\"", fileEncoding := some 4, lastKnownFileType := some "sourcecode.c.objc", includeInIndex := some 0 }),
       ("FR1_comment", SEnt.cmt "foo.m")]
    pbxGroup :=
      [("GRPKEY", SEnt.recd { name := some "Plugins", children := some [{ value := some "FR1", comment := some "foo.m" }] }),
       ("GRPKEY_comment", SEnt.cmt "Plugins")]
    pbxSourcesBuildPhase :=
      [("PHKEY", SEnt.recd { files := [{ value := some "BU1", comment := some "foo.m in Sources" }] }),
       ("PHKEY_comment", SEnt.cmt "Sources")] }

/-- The graph after `removeSourceFile("Plugins/foo.m")` on `c3O4v`: both
build-file records are gone (the pre-existing one included), and the
pre-existing file reference was deleted while the newly added one
survives. -/
def c3O5v : Objects :=
  { pbxFileReference :=
      [("FR1", SEnt.recd { name := some "\"foo.m\"", path := some "\"Plugins/foo.m\"", sourceTree := some "\"<group>\"", fileEncoding := some 4, lastKnownFileType := some "sourcecode.c.objc", includeInIndex := some 0 }),
       ("FR1_comment", SEnt.cmt "foo.m")]
    pbxGroup :=
      [("GRPKEY", SEnt.recd { name := some "Plugins", children := some [{ value := some "FR1", comment := some "foo.m" }] }),
       ("GRPKEY_comment", SEnt.cmt "Plugins")]
    pbxSourcesBuildPhase :=
      [("PHKEY", SEnt.recd { files := [] }),
       ("PHKEY_comment", SEnt.cmt "Sources")] }

/-- The descriptor `removeSourceFile` returns in the counterexample run:
its `fileRef`/`uuid` record the key of the wrongly deleted pre-existing
reference. -/
def c3F4v : PbxFile :=
  { basename := "foo.m"
    lastKnownFileType := some "sourcecode.c.objc"
    group := some "Sources"
    path := some "Plugins/foo.m"
    fileEncoding := some 4
    defaultEncoding := some 4
    sourceTree := "\"<group>\""
    fileRef := some "EXISTFR"
    uuid := some "EXISTFR" }

/-- C3 counterexample to the original claim: on a graph with a second
tracked file of the same basename in another directory, `removeSourceFile`
after `addSourceFile` does not restore the buckets — it empties the
build-file bucket (deleting the unrelated file's build record) and deletes
the unrelated file's reference instead of the added one. -/
theorem c3_counterexample :
    (∃ f3, addSourceFilePlugin c3OW "Plugins/foo.m" {} "FR1" "G1" "A1" "B1"
      "BU1" = Except.ok (some (f3, c3O4v))) ∧
    removeSourceFilePlugin c3O4v "Plugins/foo.m" {} =
      Except.ok (c3O5v, c3F4v) ∧
    c3O5v.pbxBuildFile ≠ c3OW.pbxBuildFile ∧
    jsGet c3O5v.pbxFileReference "EXISTFR" = none ∧
    jsGet c3OW.pbxFileReference "EXISTFR" ≠ none := by
  have hbf : rmBFGo "foo.m" [] c3O4v.pbxBuildFile = [] := by
    rw [rmBFGo_spec _ _ _ (by decide)]
    rfl
  refine ⟨⟨_, rfl⟩, ?_, by decide, by decide, by decide⟩
  have hstep : removeSourceFilePlugin c3O4v "Plugins/foo.m" {} =
      Except.ok ({ c3O5v with
        pbxBuildFile := rmBFGo "foo.m" [] c3O4v.pbxBuildFile }, c3F4v) := rfl
  rw [hstep, hbf]
  rfl
/-- C3 (corrected): removeSourceFile after addSourceFile with the same
path and options restores every bucket touched by the add — provided no
pre-existing file reference matches the quoted name/path of the added
file, no pre-existing build-file record shares its basename, the owning
group has no child with the new fileRef value, the owning phase has no
entry with the same long comment, and the generated identifiers are
fresh. Without those provisos the removal deletes the wrong records, as
the counterexample shows. -/
theorem c3_remove_inverts_add (o : Objects) (p : String)
    (opt : PbxFileOptions) (uFileRef ug u1 u2 uBuild : String)
    (P gkc gk pkc pk : String) (gce : SEnt GroupRecord) (g : GroupRecord)
    (ch : List GroupChild) (pce : SEnt PhaseRecord) (ph : PhaseRecord)
    (hpath : (mkPbxFile p opt).path = some P)
    (hidem : replBackslash P = P)
    (hht : opt.hasTarget = false)
    (hfindg : o.pbxGroup.find?
      (fun q => isCommentKey q.1 && sentEqStr q.2 "Plugins") = some (gkc, gce))
    (hstripg : stripCommentSuffix gkc = gk)
    (hgknc : isCommentKey gk = false)
    (hgrec : jsGet o.pbxGroup gk = some (SEnt.recd g))
    (hgall : ∀ e, (gk, e) ∈ o.pbxGroup → e = SEnt.recd g)
    (hgpath : optTruthyS g.path = false)
    (hch : g.children = some ch)
    (hdup : hasFileTruthy o (mkPbxFile p opt).path = false)
    (hfindp : o.pbxSourcesBuildPhase.find?
      (fun q => isCommentKey q.1 && sentEqStr q.2 "Sources") = some (pkc, pce))
    (hstripp : stripCommentSuffix pkc = pk)
    (hpknc : isCommentKey pk = false)
    (hprec : jsGet o.pbxSourcesBuildPhase pk = some (SEnt.recd ph))
    (hpall : ∀ e, (pk, e) ∈ o.pbxSourcesBuildPhase → e = SEnt.recd ph)
    (hnofr : ∀ q ∈ o.pbxFileReference, frMatch q.2
      ("\"" ++ (mkPbxFile p opt).basename ++ "\"") ("\"" ++ P ++ "\"") = false)
    (hnoch : ∀ c ∈ ch, jsEqOO (some uFileRef) c.value = false)
    (hnobf : ∀ q ∈ o.pbxBuildFile,
      bfMatch q.2 (mkPbxFile p opt).basename = false)
    (hnoph : ∀ c ∈ ph.files, jsEqOS c.comment
      ((mkPbxFile p opt).basename ++ " in " ++
        jsShowO (mkPbxFile p opt).group) = false)
    (hfr1 : uFileRef ∉ o.pbxFileReference.map Prod.fst)
    (hfr2 : uFileRef ++ "_comment" ∉ o.pbxFileReference.map Prod.fst)
    (hub1 : uBuild ∉ o.pbxBuildFile.map Prod.fst)
    (hub2 : uBuild ++ "_comment" ∉ o.pbxBuildFile.map Prod.fst)
    (hubnc : isCommentKey uBuild = false) :
    ∃ F3 O4 F4,
      addSourceFilePlugin o p opt uFileRef ug u1 u2 uBuild =
        Except.ok (some (F3, O4)) ∧
      removeSourceFilePlugin O4 p opt = Except.ok (o, F4) := by
  obtain ⟨F3, O4, R, cmt, heq, hb3, hp3, hg3, hs3, hf3, bref, hmatch,
    bgrp, bbf, bph, bnt, bvg, bxb, bxl, btd, bcp⟩ :=
    addSourceFilePlugin_success o p opt uFileRef ug u1 u2 uBuild P gkc gk
      pkc pk gce g ch pce ph hpath hht hfindg hstripg hgrec hgpath hch
      hdup hfr1 hfr2 hfindp hstripp hprec
  obtain ⟨F4, hrem⟩ :=
    removeSourceFilePlugin_success o O4 p opt uFileRef uBuild P gkc gk
      pkc pk gce g ch pce ph R cmt hpath hidem hht hfindg hstripg hgknc
      hgrec hgall hgpath hch hfindp hstripp hpknc hprec hpall hnofr hnoch
      hnobf hnoph hfr1 hfr2 hub1 hub2 hubnc hmatch bref bgrp bbf bph bnt
      bvg bxb bxl btd bcp
  exact ⟨F3, O4, F4, heq, hrem⟩
/-- Clean witness graph for C3: an empty Plugins group and Sources phase,
and no pre-existing file or build records at all. -/
def c3CW : Objects :=
  { pbxGroup :=
      [("GRPKEY", SEnt.recd { name := some "Plugins", children := some [] }),
       ("GRPKEY_comment", SEnt.cmt "Plugins")]
    pbxSourcesBuildPhase :=
      [("PHKEY", SEnt.recd { files := [] }),
       ("PHKEY_comment", SEnt.cmt "Sources")] }

/-- Witness for C3 at a concrete clean graph. -/
theorem c3_witness :
    ∃ F3 O4 F4,
      addSourceFilePlugin c3CW "Plugins/foo.m" {} "FR1" "G1" "A1" "B1"
        "BU1" = Except.ok (some (F3, O4)) ∧
      removeSourceFilePlugin O4 "Plugins/foo.m" {} =
        Except.ok (c3CW, F4) :=
  c3_remove_inverts_add c3CW "Plugins/foo.m" {} "FR1" "G1" "A1" "B1" "BU1"
    "Plugins/foo.m" "GRPKEY_comment" "GRPKEY" "PHKEY_comment" "PHKEY"
    (SEnt.cmt "Plugins") { name := some "Plugins", children := some [] } []
    (SEnt.cmt "Sources") { files := [] }
    rfl rfl rfl rfl rfl rfl rfl
    (by
      intro e he
      simp only [c3CW, List.mem_cons, List.not_mem_nil, or_false,
        Prod.mk.injEq] at he
      rcases he with ⟨h1, h2⟩ | ⟨h1, h2⟩
      · exact h2
      · exact absurd h1 (by decide))
    rfl rfl rfl rfl rfl rfl rfl
    (by
      intro e he
      simp only [c3CW, List.mem_cons, List.not_mem_nil, or_false,
        Prod.mk.injEq] at he
      rcases he with ⟨h1, h2⟩ | ⟨h1, h2⟩
      · exact h2
      · exact absurd h1 (by decide))
    (fun q hq => absurd hq (List.not_mem_nil q))
    (fun c hc => absurd hc (List.not_mem_nil c))
    (fun q hq => absurd hq (List.not_mem_nil q))
    (fun c hc => absurd hc (List.not_mem_nil c))
    (by decide) (by decide) (by decide) (by decide) rfl
